import Mathlib

/-!
A shallow embedding of the store composition and dispatch engine of
`src/store.js` (a Vuex-style state container), together with the module
data structure of `src/module/module.js`.

JavaScript values (states, payloads, thrown errors) are modelled by the
mutual inductives `JVal`/`JArr`/`JObj`; in-place mutation of the shared
state tree is rendered functionally (an update along a path replaces the
slice and rebuilds the root).  Promises are modelled by their settled
outcome (`Except JVal JVal`: resolved value or rejection reason); the
single-threaded event ordering of commits and dispatches is captured by an
explicit event log threaded through the `Store` structure.
-/

set_option maxHeartbeats 1000000

mutual
/-- A JavaScript value: `undefined`, booleans, numbers (as integers),
strings, arrays and plain objects (ordered string-keyed field lists,
mirroring JS object insertion order). -/
inductive JVal where
  | undefined : JVal
  | bool : Bool → JVal
  | num : Int → JVal
  | str : String → JVal
  | arr : JArr → JVal
  | obj : JObj → JVal

/-- The elements of a JS array. -/
inductive JArr where
  | nil : JArr
  | cons : JVal → JArr → JArr

/-- The ordered fields of a JS object. -/
inductive JObj where
  | nil : JObj
  | cons : String → JVal → JObj → JObj
end

deriving instance DecidableEq for JVal
deriving instance DecidableEq for JArr
deriving instance DecidableEq for JObj

/-- Build a JS array from a Lean list of values. -/
def JArr.ofList : List JVal → JArr
  | [] => .nil
  | v :: vs => .cons v (JArr.ofList vs)

/-- Build a JS object from a Lean list of fields. -/
def JObj.ofList : List (String × JVal) → JObj
  | [] => .nil
  | (k, v) :: fs => .cons k v (JObj.ofList fs)

/-- First field named `k`, if any. -/
def JObj.get : JObj → String → Option JVal
  | .nil, _ => none
  | .cons k v tl, key => if k = key then some v else JObj.get tl key

/-- `key in obj`. -/
def JObj.hasKey (o : JObj) (key : String) : Bool :=
  (o.get key).isSome

/-- Property write (the semantics of `Vue.set` / plain assignment on an
object): an existing key keeps its position and gets the new value, a new
key is appended. -/
def JObj.set : JObj → String → JVal → JObj
  | .nil, key, x => .cons key x .nil
  | .cons k v tl, key, x =>
    if k = key then .cons k x tl else .cons k v (JObj.set tl key x)

/-- JS truthiness of a value. -/
def JVal.truthy : JVal → Bool
  | .undefined => false
  | .bool b => b
  | .num n => n ≠ 0
  | .str s => s ≠ ""
  | .arr _ => true
  | .obj _ => true

/-- `util.isObject`: `obj !== null && typeof obj === 'object'` (arrays are
objects in JS, but property access on them is modelled only for plain
objects since the engine only reads `.type` off commit/dispatch
arguments). -/
def isObject : JVal → Bool
  | .arr _ => true
  | .obj _ => true
  | _ => false

/-- Property read `v[k]`: the first field named `k` of an object,
`undefined` otherwise. -/
def JVal.field (v : JVal) (k : String) : JVal :=
  match v with
  | .obj fs => (fs.get k).getD .undefined
  | _ => .undefined

/-- Property write `v[k] = x` on an object; dropped on non-objects. -/
def JVal.setField (v : JVal) (k : String) (x : JVal) : JVal :=
  match v with
  | .obj fs => .obj (fs.set k x)
  | w => w

/-- `getNestedState(state, path)`:
`path.reduce((state, key) => state[key], state)`. -/
def getNestedState (state : JVal) (path : List String) : JVal :=
  path.foldl (fun s k => s.field k) state

/-- Functional rendering of an in-place update of the slice sitting at
`path` inside the root state tree: mutating the aliased sub-object is
modelled by rebuilding the root with the new slice at `path`. -/
def setNestedState (state : JVal) (path : List String) (slice : JVal) : JVal :=
  match path with
  | [] => slice
  | k :: rest => state.setField k (setNestedState (state.field k) rest slice)

/-! ## Subscribers, handlers, events -/

/-- The observable behaviour of a subscriber callback when invoked: it
returns normally, throws a value, or calls the unsubscribe capability that
its own registration returned (splicing itself out of the live list)
before returning. -/
inductive SubBehavior where
  | pureB : SubBehavior
  | throws : JVal → SubBehavior
  | unsubSelf : SubBehavior
deriving DecidableEq

/-- A commit subscriber: `id` models the JS function's reference identity
(`indexOf` uses `===`). -/
structure Subscriber where
  id : Nat
  behavior : SubBehavior
deriving DecidableEq

/-- An action subscriber: a `{before?, after?, error?}` record
(`subscribeAction` wraps a bare function as `{before: fn}`). -/
structure ActionSub where
  id : Nat
  before : Option SubBehavior
  after : Option SubBehavior
  error : Option SubBehavior
deriving DecidableEq

/-- What a raw action handler produces: a plain (non-promise) value, or a
promise modelled by its settled outcome. -/
inductive ActionRet where
  | val : JVal → ActionRet
  | prom : Except JVal JVal → ActionRet

/-- A wrapped mutation handler as stored by `registerMutation`: the closure
`payload => handler.call(store, local.state, payload)` is defunctionalized
into the raw handler plus the module `path` its local context closes over
(`local.state` is `getNestedState(store.state, path)` read at call time).
The JS handler mutates the local slice in place; the functional rendering
has it return the updated slice. -/
structure WrappedMutation where
  path : List String
  handler : JVal → JVal → JVal

/-- A wrapped action handler as stored by `registerAction`: raw handler
plus the captured module path.  The raw handler receives its local state
and the payload; the context's `dispatch`/`commit`/getter capabilities are
not modelled (no claim exercises them), so handlers are pure result
producers. -/
structure WrappedAction where
  path : List String
  handler : JVal → JVal → ActionRet

/-- A wrapped getter as stored by `registerGetter` (raw getter receiving
local and root state; the getter-map capabilities are not modelled). -/
structure WrappedGetter where
  path : List String
  raw : JVal → JVal → JVal

/-- Events recorded by the engine, in execution order.  Log-report events
model `console.error`/`console.warn` calls that the source guards with
`__DEV__`. -/
inductive Ev where
  | mutHandlerCall (ty : String) (idx : Nat) (localState : JVal) (payload : JVal)
      (committing : Bool)
  | commitSubCall (subId : Nat) (ty : String) (payload : JVal) (stateSeen : JVal)
  | beforeSubCall (subId : Nat) (ty : String) (stateSeen : JVal)
  | actHandlerStart (ty : String) (idx : Nat) (payload : JVal)
  | afterSubCall (subId : Nat) (ty : String) (stateSeen : JVal)
  | errorSubCall (subId : Nat) (ty : String) (stateSeen : JVal) (err : JVal)
  | unknownMutationLog (ty : String)
  | unknownActionLog (ty : String)
  | subLoopErrorLog (which : String) (err : JVal)
  | duplicateNamespaceLog (ns : String)
  | duplicateGetterLog (ty : String)
  | overrideStateFieldLog (key : String)
  | stateGraft (path : List String) (committing : Bool)
  | stateSwap (committing : Bool)
deriving DecidableEq

/-! ## The module data structure (`src/module/module.js`) -/

/-- A raw action definition: either the `{handler, root}` form or a plain
function (then `root` is false). -/
structure ActionDef where
  root : Bool
  handler : JVal → JVal → ActionRet

/-- A node of the module tree (class `Module`): `namespaced` flag, own
state slice, own mutation/action/getter definitions (insertion-ordered
maps), and named children.  `mid` models the JS object identity of the
module (the namespace map stores module references). -/
inductive ModuleT where
  | mk (mid : Nat) (namespaced : Bool) (state : JVal)
      (mutations : List (String × (JVal → JVal → JVal)))
      (actions : List (String × ActionDef))
      (getters : List (String × (JVal → JVal → JVal)))
      (children : List (String × ModuleT))

def ModuleT.mid : ModuleT → Nat
  | .mk i _ _ _ _ _ _ => i

def ModuleT.namespaced : ModuleT → Bool
  | .mk _ n _ _ _ _ _ => n

def ModuleT.state : ModuleT → JVal
  | .mk _ _ s _ _ _ _ => s

def ModuleT.mutations : ModuleT → List (String × (JVal → JVal → JVal))
  | .mk _ _ _ m _ _ _ => m

def ModuleT.actions : ModuleT → List (String × ActionDef)
  | .mk _ _ _ _ a _ _ => a

def ModuleT.getters : ModuleT → List (String × (JVal → JVal → JVal))
  | .mk _ _ _ _ _ g _ => g

def ModuleT.children : ModuleT → List (String × ModuleT)
  | .mk _ _ _ _ _ _ c => c

/-- `getChild(key)`. -/
def ModuleT.getChild (m : ModuleT) (key : String) : Option ModuleT :=
  ((m.children).find? (fun p => p.1 = key)).map (fun p => p.2)

/-! ## The store -/

/-- The `Store`'s internal state.  `log` is the model's event trace; the
reactive `_vm` binding is out of scope, so the root state object the vm
holds is the `state` field directly. -/
structure Store where
  _committing : Bool
  _mutations : List (String × List WrappedMutation)
  _actions : List (String × List WrappedAction)
  _wrappedGetters : List (String × WrappedGetter)
  _modules : ModuleT
  _modulesNamespaceMap : List (String × Nat)
  _subscribers : List Subscriber
  _actionSubscribers : List ActionSub
  _makeLocalGettersCache : List String
  state : JVal
  log : List Ev

/-- Lookup in an insertion-ordered string-keyed map
(`Object.create(null)` maps are modelled by assoc lists). -/
def lookupEntry {α : Type} (m : List (String × α)) (k : String) : Option α :=
  (m.find? (fun p => p.1 = k)).map (fun p => p.2)

/-- Write to an insertion-ordered string-keyed map: existing key keeps its
position, new key is appended. -/
def setEntry {α : Type} (m : List (String × α)) (k : String) (v : α) :
    List (String × α) :=
  if m.any (fun p => p.1 = k) then
    m.map (fun p => if p.1 = k then (k, v) else p)
  else
    m ++ [(k, v)]

/-! ## unifyObjectStyle and the committing guard -/

/-- `unifyObjectStyle(type, payload, options)`: object-style calls
(`isObject(type) && type.type`) shift the arguments. -/
def unifyObjectStyle (ty payload opts : JVal) : JVal × JVal × JVal :=
  if isObject ty && (ty.field "type").truthy then
    (ty.field "type", ty, payload)
  else
    (ty, payload, opts)

/-- The `__DEV__` assertion `typeof type === 'string'`: non-strings throw. -/
def asTypeString : JVal → Option String
  | .str s => some s
  | _ => none

/-- The thrown assertion error for a non-string type. -/
def typeAssertionErr : JVal :=
  .str "[vuex] expects string as the type"

/-- `_withCommit(fn)`: saves `_committing`, sets it `true`, runs `fn`, and
restores the saved value.  There is no `try`/`finally`, so when `fn`
throws (`some e` in the second component) the restore line never runs and
the flag stays as `fn` left it. -/
def _withCommit (store : Store) (fn : Store → Store × Option JVal) :
    Store × Option JVal :=
  let committing := store._committing
  let s1 : Store := { store with _committing := true }
  match fn s1 with
  | (s2, none) => ({ s2 with _committing := committing }, none)
  | (s2, some e) => (s2, some e)

/-! ## genericSubscribe -/

/-- `genericSubscribe(fn, subs, options)`: appends (or prepends) `fn` only
when `subs.indexOf(fn) < 0`; reference identity is modelled by `idOf`. -/
def genericSubscribe {α : Type} (idOf : α → Nat) (fn : α) (subs : List α)
    (prepend : Bool) : List α :=
  if subs.any (fun s => idOf s = idOf fn) then subs
  else if prepend then fn :: subs else subs ++ [fn]

/-- The unsubscribe capability `genericSubscribe` returns:
`i = subs.indexOf(fn); if (i > -1) subs.splice(i, 1)` applied to the live
list — the first element with the callback's identity is removed, if
present. -/
def unsubscribeNow {α : Type} (idOf : α → Nat) (subId : Nat) : List α → List α
  | [] => []
  | x :: rest =>
    if idOf x = subId then rest else x :: unsubscribeNow idOf subId rest

/-- `store.subscribe(fn, options)` (registration effect). -/
def Store.subscribe (store : Store) (fn : Subscriber) (prepend : Bool) : Store :=
  { store with
    _subscribers := genericSubscribe Subscriber.id fn store._subscribers prepend }

/-- `store.subscribeAction(fn, options)` (a bare function arrives already
wrapped as `{before: fn}`). -/
def Store.subscribeAction (store : Store) (fn : ActionSub) (prepend : Bool) :
    Store :=
  { store with
    _actionSubscribers :=
      genericSubscribe ActionSub.id fn store._actionSubscribers prepend }

/-! ## Handler registration -/

/-- `registerMutation(store, type, handler, local)`: gets or creates the
entry list and pushes the wrapped handler (the local context is carried as
its path). -/
def registerMutation (store : Store) (ty : String)
    (handler : JVal → JVal → JVal) (path : List String) : Store :=
  let entry := (lookupEntry store._mutations ty).getD []
  { store with
    _mutations := setEntry store._mutations ty (entry ++ [⟨path, handler⟩]) }

/-- `registerAction(store, type, handler, local)`: gets or creates the
entry list and pushes the wrapped handler (which resolves non-promise
results; the devtool hook is absent). -/
def registerAction (store : Store) (ty : String)
    (handler : JVal → JVal → ActionRet) (path : List String) : Store :=
  let entry := (lookupEntry store._actions ty).getD []
  { store with
    _actions := setEntry store._actions ty (entry ++ [⟨path, handler⟩]) }

/-- `registerGetter(store, type, rawGetter, local)`: a duplicate qualified
key is reported (`console.error`) and the new getter discarded; otherwise
the wrapped getter is stored. -/
def registerGetter (store : Store) (ty : String)
    (rawGetter : JVal → JVal → JVal) (path : List String) : Store :=
  if (lookupEntry store._wrappedGetters ty).isSome then
    { store with log := store.log ++ [.duplicateGetterLog ty] }
  else
    { store with
      _wrappedGetters := setEntry store._wrappedGetters ty ⟨path, rawGetter⟩ }

/-! ## commit -/

/-- `entry.forEach(commitIterator)`: runs each wrapped handler in list
order; `i` numbers the events.  Each wrapped handler reads its local slice
from the current root state, applies the raw handler, and writes the slice
back (the functional rendering of in-place mutation). -/
def applyWrappedMutation (st : JVal) (w : WrappedMutation) (payload : JVal) :
    JVal :=
  setNestedState st w.path (w.handler (getNestedState st w.path) payload)

def runMutationEntry (ty : String) (payload : JVal) :
    Nat → List WrappedMutation → Store → Store
  | _, [], s => s
  | i, w :: rest, s =>
    let localSt := getNestedState s.state w.path
    runMutationEntry ty payload (i + 1) rest
      { s with
        state := setNestedState s.state w.path (w.handler localSt payload),
        log := s.log ++ [.mutHandlerCall ty i localSt payload s._committing] }

/-- The commit-subscriber notification loop
`this._subscribers.slice().forEach(sub => sub(mutation, this.state))`:
iterates the snapshot, threading the live list (which an `unsubSelf`
subscriber splices) — there is no `try`/`catch`, so a throwing subscriber
aborts the loop and the exception propagates out of `commit`. -/
def runCommitSubs (ty : String) (payload : JVal) (stateNow : JVal) :
    List Subscriber → List Subscriber → List Ev →
    List Subscriber × List Ev × Option JVal
  | [], live, log => (live, log, none)
  | sub :: rest, live, log =>
    let log' := log ++ [.commitSubCall sub.id ty payload stateNow]
    match sub.behavior with
    | .pureB => runCommitSubs ty payload stateNow rest live log'
    | .throws e => (live, log', some e)
    | .unsubSelf =>
      runCommitSubs ty payload stateNow rest
        (unsubscribeNow Subscriber.id sub.id live) log'

/-- `commit(_type, _payload, _options)`.  The second component is a thrown
value, if any (a failed type assertion or a throwing subscriber). -/
def Store.commit (store : Store) (_ty _payload _opts : JVal) :
    Store × Option JVal :=
  let u := unifyObjectStyle _ty _payload _opts
  match asTypeString u.1 with
  | none => (store, some typeAssertionErr)
  | some t =>
    match lookupEntry store._mutations t with
    | none =>
      ({ store with log := store.log ++ [.unknownMutationLog t] }, none)
    | some entry =>
      let store1 :=
        (_withCommit store
          (fun s => (runMutationEntry t u.2.1 0 entry s, none))).1
      let snap := store1._subscribers
      let r := runCommitSubs t u.2.1 store1.state snap store1._subscribers
        store1.log
      ({ store1 with _subscribers := r.1, log := r.2.1 }, r.2.2)

/-! ## dispatch -/

instance {ε α : Type} [DecidableEq ε] [DecidableEq α] :
    DecidableEq (Except ε α) := fun a b =>
  match a, b with
  | .ok x, .ok y =>
    if h : x = y then .isTrue (by rw [h]) else .isFalse (by simp [h])
  | .error x, .error y =>
    if h : x = y then .isTrue (by rw [h]) else .isFalse (by simp [h])
  | .ok _, .error _ => .isFalse (by simp)
  | .error _, .ok _ => .isFalse (by simp)

/-- What `dispatch` returns: a synchronously thrown value (failed type
assertion), plain `undefined` (unknown action type), or a promise with the
given settled outcome. -/
inductive DispatchResult where
  | thrown : JVal → DispatchResult
  | noop : DispatchResult
  | promise : Except JVal JVal → DispatchResult
deriving DecidableEq

/-- The three action-subscriber notification phases. -/
inductive SubPhase where
  | before : SubPhase
  | after : SubPhase
  | error : SubPhase
deriving DecidableEq

def phaseField : SubPhase → ActionSub → Option SubBehavior
  | .before, s => s.before
  | .after, s => s.after
  | .error, s => s.error

def phaseEv : SubPhase → Nat → String → JVal → Option JVal → Ev
  | .before, i, t, st, _ => .beforeSubCall i t st
  | .after, i, t, st, _ => .afterSubCall i t st
  | .error, i, t, st, e => .errorSubCall i t st (e.getD .undefined)

def phaseLabel : SubPhase → String
  | .before => "before"
  | .after => "after"
  | .error => "error"

/-- One action-subscriber notification loop: iterates a filtered copy of
the list (so splices to the live list cannot corrupt the walk), invoking
each subscriber's callback for the phase.  The whole loop sits in a single
`try`/`catch`: the first throwing callback aborts the remaining iterations,
the error is reported (`console.warn`/`console.error`), and the `Bool`
result records that the loop was cut short. -/
def runActionSubs (ph : SubPhase) (ty : String) (stateNow : JVal)
    (err : Option JVal) :
    List ActionSub → List ActionSub → List Ev →
    List ActionSub × List Ev × Bool
  | [], live, log => (live, log, false)
  | sub :: rest, live, log =>
    match phaseField ph sub with
    | none => runActionSubs ph ty stateNow err rest live log
    | some b =>
      let log' := log ++ [phaseEv ph sub.id ty stateNow err]
      match b with
      | .pureB => runActionSubs ph ty stateNow err rest live log'
      | .throws e => (live, log' ++ [.subLoopErrorLog (phaseLabel ph) e], true)
      | .unsubSelf =>
        runActionSubs ph ty stateNow err rest
          (unsubscribeNow ActionSub.id sub.id live) log'

/-- The wrapped action handler: runs the raw handler on its local state
slice and the payload; a non-promise result is `Promise.resolve`d. -/
def applyWrappedAction (st : JVal) (w : WrappedAction) (payload : JVal) :
    Except JVal JVal :=
  match w.handler (getNestedState st w.path) payload with
  | .val v => .ok v
  | .prom r => r

/-- `Promise.all` over already-settled promises: resolves to the list of
values in input order, rejects with the first rejection. -/
def promiseAll : List (Except JVal JVal) → Except JVal (List JVal)
  | [] => .ok []
  | .ok v :: rest => (promiseAll rest).map (fun vs => v :: vs)
  | .error e :: _ => .error e

/-- `dispatch(_type, _payload)`.  The `before` loop iterates
`slice().filter(sub => sub.before)`; the handlers are all invoked (their
synchronous prefixes run, recorded as `actHandlerStart` events) before the
aggregate promise is awaited; the `after`/`error` loops run on settlement
over the then-current live subscriber list. -/
def Store.dispatch (store : Store) (_ty _payload : JVal) :
    Store × DispatchResult :=
  let u := unifyObjectStyle _ty _payload .undefined
  match asTypeString u.1 with
  | none => (store, .thrown typeAssertionErr)
  | some t =>
    match lookupEntry store._actions t with
    | none =>
      ({ store with log := store.log ++ [.unknownActionLog t] }, .noop)
    | some entry =>
      let payload := u.2.1
      let snap := store._actionSubscribers
      let rb := runActionSubs .before t store.state none
        (snap.filter (fun s => s.before.isSome)) store._actionSubscribers
        store.log
      let store1 : Store :=
        { store with _actionSubscribers := rb.1, log := rb.2.1 }
      let store2 : Store :=
        { store1 with
          log := store1.log ++
            (List.range entry.length).map (fun i => Ev.actHandlerStart t i payload) }
      let result : Except JVal JVal :=
        if 1 < entry.length then
          (promiseAll (entry.map (fun w => applyWrappedAction store2.state w payload))).map
            (fun vs => JVal.arr (JArr.ofList vs))
        else
          match entry.head? with
          | some w => applyWrappedAction store2.state w payload
          | none => .error (.str "TypeError: entry[0] is not a function")
      match result with
      | .ok res =>
        let ra := runActionSubs .after t store2.state none
          (store2._actionSubscribers.filter (fun s => s.after.isSome))
          store2._actionSubscribers store2.log
        ({ store2 with _actionSubscribers := ra.1, log := ra.2.1 },
          .promise (.ok res))
      | .error e =>
        let re := runActionSubs .error t store2.state (some e)
          (store2._actionSubscribers.filter (fun s => s.error.isSome))
          store2._actionSubscribers store2.log
        ({ store2 with _actionSubscribers := re.1, log := re.2.1 },
          .promise (.error e))

/-! ## replaceState -/

/-- `replaceState(state)`: swaps the root state object under the
committing guard (`this._vm._data.$$state = state` inside `_withCommit`);
nothing else is touched. -/
def Store.replaceState (store : Store) (newState : JVal) : Store :=
  (_withCommit store (fun s =>
    ({ s with state := newState, log := s.log ++ [.stateSwap s._committing] },
      none))).1

/-! ## The install walk -/

/-- `key in parentState`. -/
def JVal.hasKey (v : JVal) (k : String) : Bool :=
  match v with
  | .obj fs => fs.hasKey k
  | _ => false

/-- Modelled from the spec: `ModuleCollection.getNamespace(path)` lives in
`src/module/module-collection.js`, which is not among the provided source
files.  Per the spec (§4.1, §3): walks root→path accumulating each
module's own namespace contribution — its key plus the `/` separator when
that module is marked `namespaced`, nothing otherwise — returning `""`
for an all-unnamespaced path.  A path segment that resolves to no child
contributes nothing. -/
def getNamespace (root : ModuleT) (path : List String) : String :=
  (path.foldl
    (fun acc key =>
      match acc.2.getChild key with
      | some child =>
        (acc.1 ++ (if child.namespaced then key ++ "/" else ""), child)
      | none => (acc.1, acc.2))
    ("", root)).1

mutual
/-- `installModule(store, rootState, path, module, hot)` — the recursive
pre-order install walk: namespace-map registration (a duplicate namespace
is reported and then overwritten), state grafting under the committing
guard (`Vue.set(parentState, moduleName, module.state)`, with a warning
when the key pre-exists), local-context construction (carried as the
`path` captured by each wrapped handler), handler/getter registration
under namespace-qualified type strings, and recursion into children.  The
threaded `rootState` renders the in-place graft into the aliased parent
object. -/
def installModule (store : Store) (rootState : JVal) (path : List String)
    (mod : ModuleT) (hot : Bool) : Store × JVal :=
  let isRoot := path.isEmpty
  let ns := getNamespace store._modules path
  let st1 :=
    if mod.namespaced then
      let st :=
        if (lookupEntry store._modulesNamespaceMap ns).isSome then
          { store with log := store.log ++ [.duplicateNamespaceLog ns] }
        else store
      { st with _modulesNamespaceMap := setEntry st._modulesNamespaceMap ns mod.mid }
    else store
  let p2 :=
    if !isRoot && !hot then
      let parentPath := path.dropLast
      let parentState := getNestedState rootState parentPath
      let moduleName := (path.getLast?).getD ""
      let g := _withCommit st1 (fun s =>
        let s1 :=
          if parentState.hasKey moduleName then
            { s with log := s.log ++ [.overrideStateFieldLog moduleName] }
          else s
        ({ s1 with log := s1.log ++ [.stateGraft path s1._committing] }, none))
      (g.1,
        setNestedState rootState parentPath
          (parentState.setField moduleName mod.state))
    else (st1, rootState)
  let st3 := (mod.mutations).foldl
    (fun s kv => registerMutation s (ns ++ kv.1) kv.2 path) p2.1
  let st4 := (mod.actions).foldl
    (fun s kv =>
      registerAction s (if kv.2.root then kv.1 else ns ++ kv.1) kv.2.handler path)
    st3
  let st5 := (mod.getters).foldl
    (fun s kv => registerGetter s (ns ++ kv.1) kv.2 path) st4
  installChildren st5 p2.2 path (mod.children) hot
termination_by sizeOf mod
decreasing_by
  cases mod with
  | mk i n s m a g c => simp [ModuleT.children]

/-- `module.forEachChild((child, key) => installModule(..., path.concat(key), child, hot))`. -/
def installChildren (store : Store) (rootState : JVal) (path : List String)
    (children : List (String × ModuleT)) (hot : Bool) : Store × JVal :=
  match children with
  | [] => (store, rootState)
  | (k, child) :: rest =>
    let r := installModule store rootState (path ++ [k]) child hot
    installChildren r.1 r.2 path rest hot
termination_by sizeOf children
decreasing_by
  all_goals simp
  omega
end

/-! ## Specification functions and characterization lemmas -/

/-- The state after running a list of wrapped mutation handlers in order. -/
def mutFoldState (payload : JVal) : List WrappedMutation → JVal → JVal
  | [], st => st
  | w :: rest, st => mutFoldState payload rest (applyWrappedMutation st w payload)

/-- The handler-call events of a commit: one per handler, numbered from
`i`, each recording the local state slice the handler received. -/
def mutCallEvs (ty : String) (payload : JVal) (committing : Bool) :
    Nat → List WrappedMutation → JVal → List Ev
  | _, [], _ => []
  | i, w :: rest, st =>
    .mutHandlerCall ty i (getNestedState st w.path) payload committing ::
      mutCallEvs ty payload committing (i + 1) rest (applyWrappedMutation st w payload)

theorem runMutationEntry_eq (ty : String) (payload : JVal) :
    ∀ (l : List WrappedMutation) (i : Nat) (s : Store),
    runMutationEntry ty payload i l s
      = { s with
          state := mutFoldState payload l s.state,
          log := s.log ++ mutCallEvs ty payload s._committing i l s.state } := by
  intro l
  induction l with
  | nil => intro i s; simp [runMutationEntry, mutFoldState, mutCallEvs]
  | cons w rest ih =>
    intro i s
    simp only [runMutationEntry, mutFoldState, mutCallEvs, ih,
      applyWrappedMutation]
    simp

theorem mutCallEvs_length (ty : String) (payload : JVal) (c : Bool) :
    ∀ (l : List WrappedMutation) (i : Nat) (st : JVal),
    (mutCallEvs ty payload c i l st).length = l.length := by
  intro l
  induction l with
  | nil => intro i st; simp [mutCallEvs]
  | cons w rest ih => intro i st; simp [mutCallEvs, ih]

theorem mutCallEvs_get (ty : String) (payload : JVal) (c : Bool) :
    ∀ (l : List WrappedMutation) (i : Nat) (st : JVal) (j : Nat)
      (hj : j < l.length),
    (mutCallEvs ty payload c i l st).get? j
      = some (.mutHandlerCall ty (i + j)
          (getNestedState (mutFoldState payload (l.take j) st)
            (l.get ⟨j, hj⟩).path)
          payload c) := by
  intro l
  induction l with
  | nil => intro i st j hj; simp at hj
  | cons w rest ih =>
    intro i st j hj
    cases j with
    | zero => simp [mutCallEvs, mutFoldState]
    | succ j' =>
      simp only [mutCallEvs, List.get?_cons_succ]
      rw [ih (i + 1) (applyWrappedMutation st w payload) j'
        (by simpa using Nat.lt_of_succ_lt_succ hj)]
      simp [mutFoldState, Nat.add_assoc, Nat.add_comm 1 j']

theorem runCommitSubs_log_shape (ty : String) (payload : JVal) (stNow : JVal) :
    ∀ (snap live : List Subscriber) (log : List Ev),
    ∃ evs : List Ev,
      (runCommitSubs ty payload stNow snap live log).2.1 = log ++ evs
      ∧ ∀ e ∈ evs, ∃ s ∈ snap, e = .commitSubCall s.id ty payload stNow := by
  intro snap
  induction snap with
  | nil => intro live log; exact ⟨[], by simp [runCommitSubs], by simp⟩
  | cons sub rest ih =>
    intro live log
    cases hb : sub.behavior with
    | pureB =>
      obtain ⟨evs, h1, h2⟩ := ih live (log ++ [.commitSubCall sub.id ty payload stNow])
      refine ⟨.commitSubCall sub.id ty payload stNow :: evs, ?_, ?_⟩
      · simp [runCommitSubs, hb, h1]
      · intro e he
        rcases List.mem_cons.mp he with h | h
        · exact ⟨sub, by simp, h⟩
        · obtain ⟨s, hs, he'⟩ := h2 e h
          exact ⟨s, by simp [hs], he'⟩
    | throws err =>
      refine ⟨[.commitSubCall sub.id ty payload stNow], ?_, ?_⟩
      · simp [runCommitSubs, hb]
      · intro e he
        simp at he
        exact ⟨sub, by simp, he⟩
    | unsubSelf =>
      obtain ⟨evs, h1, h2⟩ := ih (unsubscribeNow Subscriber.id sub.id live)
        (log ++ [.commitSubCall sub.id ty payload stNow])
      refine ⟨.commitSubCall sub.id ty payload stNow :: evs, ?_, ?_⟩
      · simp [runCommitSubs, hb, h1]
      · intro e he
        rcases List.mem_cons.mp he with h | h
        · exact ⟨sub, by simp, h⟩
        · obtain ⟨s, hs, he'⟩ := h2 e h
          exact ⟨s, by simp [hs], he'⟩

theorem commit_known_eq (store : Store) (t : String) (payload opts : JVal)
    (entry : List WrappedMutation)
    (hentry : lookupEntry store._mutations t = some entry) :
    store.commit (.str t) payload opts
      = ({ store with
            state := mutFoldState payload entry store.state,
            _subscribers :=
              (runCommitSubs t payload (mutFoldState payload entry store.state)
                store._subscribers store._subscribers
                (store.log ++ mutCallEvs t payload true 0 entry store.state)).1,
            log :=
              (runCommitSubs t payload (mutFoldState payload entry store.state)
                store._subscribers store._subscribers
                (store.log ++ mutCallEvs t payload true 0 entry store.state)).2.1 },
          (runCommitSubs t payload (mutFoldState payload entry store.state)
            store._subscribers store._subscribers
            (store.log ++ mutCallEvs t payload true 0 entry store.state)).2.2) := by
  simp only [Store.commit, unifyObjectStyle, isObject, JVal.truthy, Bool.false_and,
    Bool.and_self, if_neg, Bool.false_eq_true, not_false_iff, asTypeString, hentry,
    _withCommit, runMutationEntry_eq]

/-- **C1**: For every commit of a type with N registered mutation
handlers, all N run exactly once, synchronously, in registration order
(the j-th new log event is handler j's call), each called with
`(local.state, payload)` — its own module slice of the intermediate state
— under the committing guard (the recorded flag is `true`), and every
handler has completed before any commit-subscriber is invoked; each
invoked subscriber observes the resulting state. -/
theorem commit_runs_all_handlers_in_order_under_guard
    (store : Store) (t : String) (payload opts : JVal)
    (entry : List WrappedMutation)
    (hentry : lookupEntry store._mutations t = some entry) :
    ∃ subEvs : List Ev,
      ((store.commit (.str t) payload opts).1).log
        = store.log ++ mutCallEvs t payload true 0 entry store.state ++ subEvs
      ∧ (mutCallEvs t payload true 0 entry store.state).length = entry.length
      ∧ (∀ (j : Nat) (hj : j < entry.length),
          (mutCallEvs t payload true 0 entry store.state).get? j
            = some (.mutHandlerCall t j
                (getNestedState (mutFoldState payload (entry.take j) store.state)
                  (entry.get ⟨j, hj⟩).path)
                payload true))
      ∧ (∀ e ∈ subEvs, ∃ s ∈ store._subscribers,
          e = .commitSubCall s.id t payload (mutFoldState payload entry store.state))
      ∧ ((store.commit (.str t) payload opts).1).state
          = mutFoldState payload entry store.state := by
  obtain ⟨evs, h1, h2⟩ := runCommitSubs_log_shape t payload
    (mutFoldState payload entry store.state) store._subscribers store._subscribers
    (store.log ++ mutCallEvs t payload true 0 entry store.state)
  refine ⟨evs, ?_, mutCallEvs_length t payload true entry 0 store.state, ?_, h2, ?_⟩
  · rw [commit_known_eq store t payload opts entry hentry]
    simpa [List.append_assoc] using h1
  · intro j hj
    simpa using mutCallEvs_get t payload true entry 0 store.state j hj
  · rw [commit_known_eq store t payload opts entry hentry]

/-- A concrete raw mutation handler: `(state, n) => state.count += n`. -/
def incHandler : JVal → JVal → JVal := fun st p =>
  st.setField "count"
    (.num (match st.field "count", p with
      | .num a, .num b => a + b
      | _, _ => 0))

/-- A concrete raw mutation handler: `(state) => state.count *= 2`. -/
def doubleHandler : JVal → JVal → JVal := fun st _ =>
  st.setField "count"
    (.num (match st.field "count" with
      | .num a => 2 * a
      | _ => 0))

def exState : JVal := .obj (.cons "count" (.num 1) .nil)

def exEntry : List WrappedMutation := [⟨[], incHandler⟩, ⟨[], doubleHandler⟩]

/-- A store with two handlers registered for `"inc"` and one plain commit
subscriber. -/
def exStore : Store :=
  { _committing := false
    _mutations := [("inc", exEntry)]
    _actions := []
    _wrappedGetters := []
    _modules := .mk 0 false exState [] [] [] []
    _modulesNamespaceMap := []
    _subscribers := [⟨1, .pureB⟩]
    _actionSubscribers := []
    _makeLocalGettersCache := []
    state := exState
    log := [] }

theorem commit_runs_all_handlers_witness :
    ((exStore.commit (.str "inc") (.num 5) .undefined).1).state
      = .obj (.cons "count" (.num 12) .nil)
    ∧ exEntry.length = 2 := by
  obtain ⟨subEvs, h1, h2, h3, h4, h5⟩ :=
    commit_runs_all_handlers_in_order_under_guard exStore "inc" (.num 5) .undefined
      exEntry rfl
  refine ⟨?_, rfl⟩
  rw [h5]
  decide

/-- **C3**: Committing or dispatching a type with no registered handler
never throws and leaves the store unchanged except for the dev-mode
console report: commit returns without invoking any handler or subscriber
(`none` thrown), and dispatch returns `undefined` (`.noop`, not a rejected
promise) without invoking any handler or action subscriber. -/
theorem unknown_type_commit_dispatch_noop (store : Store) (t : String)
    (payload opts : JVal)
    (hm : lookupEntry store._mutations t = none)
    (ha : lookupEntry store._actions t = none) :
    store.commit (.str t) payload opts
      = ({ store with log := store.log ++ [.unknownMutationLog t] }, none)
    ∧ store.dispatch (.str t) payload
      = ({ store with log := store.log ++ [.unknownActionLog t] }, .noop) := by
  constructor
  · simp [Store.commit, unifyObjectStyle, isObject, asTypeString, hm]
  · simp [Store.dispatch, unifyObjectStyle, isObject, asTypeString, ha]

theorem unknown_type_witness :
    exStore.commit (.str "nope") (.num 1) .undefined
      = ({ exStore with log := [.unknownMutationLog "nope"] }, none)
    ∧ exStore.dispatch (.str "nope") (.num 1)
      = ({ exStore with log := [.unknownActionLog "nope"] }, .noop) := by
  have h := unknown_type_commit_dispatch_noop exStore "nope" (.num 1) .undefined rfl rfl
  simpa [exStore] using h

/-- **C8**: `replaceState(newState)` replaces the entire root state under
the committing guard (the swap event records the flag as set) and changes
nothing else: mutation registry, action registry, wrapped-getter registry,
module tree, namespace map, local-getters cache, both subscriber lists and
the `_committing` flag itself are untouched. -/
theorem replaceState_swaps_only_state (store : Store) (newState : JVal) :
    (store.replaceState newState).state = newState
    ∧ (store.replaceState newState).log = store.log ++ [.stateSwap true]
    ∧ (store.replaceState newState)._committing = store._committing
    ∧ (store.replaceState newState)._mutations = store._mutations
    ∧ (store.replaceState newState)._actions = store._actions
    ∧ (store.replaceState newState)._wrappedGetters = store._wrappedGetters
    ∧ (store.replaceState newState)._modules = store._modules
    ∧ (store.replaceState newState)._modulesNamespaceMap
        = store._modulesNamespaceMap
    ∧ (store.replaceState newState)._subscribers = store._subscribers
    ∧ (store.replaceState newState)._actionSubscribers
        = store._actionSubscribers
    ∧ (store.replaceState newState)._makeLocalGettersCache
        = store._makeLocalGettersCache := by
  simp [Store.replaceState, _withCommit]

/-- Helper: `_withCommit` when `fn` returns normally — the flag is
restored to its prior value around `fn` run on the flag-raised store. -/
theorem withCommit_ok_eq (store : Store) (fn : Store → Store × Option JVal)
    (h : (fn { store with _committing := true }).2 = none) :
    _withCommit store fn
      = ({ (fn { store with _committing := true }).1 with
           _committing := store._committing }, none) := by
  simp only [_withCommit]
  split
  · next s2 heq =>
    have h1 := congrArg Prod.fst heq
    simp only at h1
    rw [h1]
  · next s2 e heq =>
    rw [heq] at h
    simp at h

/-- Helper: `_withCommit` when `fn` throws — the exception propagates and
the restore line never runs. -/
theorem withCommit_throw_eq (store : Store) (fn : Store → Store × Option JVal)
    (e : JVal) (h : (fn { store with _committing := true }).2 = some e) :
    _withCommit store fn = ((fn { store with _committing := true }).1, some e) := by
  simp only [_withCommit]
  split
  · next s2 heq =>
    rw [heq] at h
    simp at h
  · next s2 e' heq =>
    have h1 := congrArg Prod.fst heq
    simp only at h1
    rw [heq] at h
    simp only at h
    rw [h1, h]

/-- **C9**: `_withCommit(fn)` is reentrancy-safe (the prior flag value is
saved and, on normal return, restored) and runs `fn` on the store with
`_committing` set `true` — the result is determined by `fn`'s value at
that flag-raised store.  When `fn` throws, the exception propagates and
the restore line never runs, so the flag remains `true` afterwards (given
that `fn` itself does not touch the flag, as mutation handlers do not).
The nested composition restores the outer prior value on normal return. -/
theorem withCommit_flag_spec (store : Store)
    (fn g : Store → Store × Option JVal)
    (hframe : ∀ s, ((fn s).1)._committing = s._committing)
    (hgok : ∀ s, (g s).2 = none) :
    ((fn { store with _committing := true }).2 = none →
      _withCommit store fn
        = ({ (fn { store with _committing := true }).1 with
              _committing := store._committing }, none))
    ∧ (∀ e : JVal, (fn { store with _committing := true }).2 = some e →
        _withCommit store fn
          = ((fn { store with _committing := true }).1, some e)
        ∧ ((_withCommit store fn).1)._committing = true)
    ∧ ((_withCommit store (fun s => _withCommit s g)).1)._committing
        = store._committing := by
  refine ⟨fun h => withCommit_ok_eq store fn h, fun e h => ⟨withCommit_throw_eq store fn e h, ?_⟩, ?_⟩
  · rw [withCommit_throw_eq store fn e h]
    rw [hframe]
  · have hinner : ∀ s : Store,
        _withCommit s g
          = ({ (g { s with _committing := true }).1 with
               _committing := s._committing }, none) :=
      fun s => withCommit_ok_eq s g (hgok _)
    have houter := withCommit_ok_eq store (fun s => _withCommit s g)
      (by simp only [hinner])
    rw [houter]

/-- A concrete `fn` that throws (as a throwing mutation handler would). -/
def wcThrowFn : Store → Store × Option JVal := fun s => (s, some (.str "boom"))

/-- A concrete `fn` that returns normally. -/
def wcOkFn : Store → Store × Option JVal := fun s => (s, none)

theorem withCommit_flag_witness :
    _withCommit exStore wcThrowFn
      = ({ exStore with _committing := true }, some (.str "boom"))
    ∧ ((_withCommit exStore wcThrowFn).1)._committing = true
    ∧ ((_withCommit exStore (fun s => _withCommit s wcOkFn)).1)._committing
        = exStore._committing := by
  obtain ⟨h1, h2, h3⟩ :=
    withCommit_flag_spec exStore wcThrowFn wcOkFn (fun s => rfl) (fun s => rfl)
  have hb := h2 (.str "boom") rfl
  exact ⟨hb.1, hb.2, h3⟩

/-! ## Dispatch characterization -/

theorem runActionSubs_log_shape (ph : SubPhase) (ty : String) (stNow : JVal)
    (err : Option JVal) :
    ∀ (snap live : List ActionSub) (log : List Ev),
    ∃ evs : List Ev,
      (runActionSubs ph ty stNow err snap live log).2.1 = log ++ evs
      ∧ ∀ e ∈ evs, (∃ s ∈ snap, e = phaseEv ph s.id ty stNow err)
          ∨ (∃ er, e = .subLoopErrorLog (phaseLabel ph) er) := by
  intro snap
  induction snap with
  | nil => intro live log; exact ⟨[], by simp [runActionSubs], by simp⟩
  | cons sub rest ih =>
    intro live log
    cases hf : phaseField ph sub with
    | none =>
      obtain ⟨evs, h1, h2⟩ := ih live log
      refine ⟨evs, by simp [runActionSubs, hf, h1], ?_⟩
      intro e he
      rcases h2 e he with ⟨s, hs, he'⟩ | h
      · exact Or.inl ⟨s, by simp [hs], he'⟩
      · exact Or.inr h
    | some b =>
      cases b with
      | pureB =>
        obtain ⟨evs, h1, h2⟩ := ih live (log ++ [phaseEv ph sub.id ty stNow err])
        refine ⟨phaseEv ph sub.id ty stNow err :: evs, ?_, ?_⟩
        · simp [runActionSubs, hf, h1]
        · intro e he
          rcases List.mem_cons.mp he with h | h
          · exact Or.inl ⟨sub, by simp, h⟩
          · rcases h2 e h with ⟨s, hs, he'⟩ | hh
            · exact Or.inl ⟨s, by simp [hs], he'⟩
            · exact Or.inr hh
      | throws er =>
        refine ⟨[phaseEv ph sub.id ty stNow err,
          .subLoopErrorLog (phaseLabel ph) er], ?_, ?_⟩
        · simp [runActionSubs, hf]
        · intro e he
          rcases List.mem_cons.mp he with h | h
          · exact Or.inl ⟨sub, by simp, h⟩
          · simp at h
            exact Or.inr ⟨er, h⟩
      | unsubSelf =>
        obtain ⟨evs, h1, h2⟩ := ih (unsubscribeNow ActionSub.id sub.id live)
          (log ++ [phaseEv ph sub.id ty stNow err])
        refine ⟨phaseEv ph sub.id ty stNow err :: evs, ?_, ?_⟩
        · simp [runActionSubs, hf, h1]
        · intro e he
          rcases List.mem_cons.mp he with h | h
          · exact Or.inl ⟨sub, by simp, h⟩
          · rcases h2 e h with ⟨s, hs, he'⟩ | hh
            · exact Or.inl ⟨s, by simp [hs], he'⟩
            · exact Or.inr hh

/-- The settled outcome of the promise `dispatch` returns for a known
entry list: `Promise.all` over all handler results when more than one
handler is registered, the single wrapped handler's result otherwise. -/
def dispatchOutcome (entry : List WrappedAction) (st : JVal) (payload : JVal) :
    Except JVal JVal :=
  if 1 < entry.length then
    (promiseAll (entry.map (fun w => applyWrappedAction st w payload))).map
      (fun vs => JVal.arr (JArr.ofList vs))
  else
    match entry.head? with
    | some w => applyWrappedAction st w payload
    | none => .error (.str "TypeError: entry[0] is not a function")

theorem dispatch_log_eq (store : Store) (t : String) (payload : JVal)
    (entry : List WrappedAction) (pre : List Ev)
    (hentry : lookupEntry store._actions t = some entry)
    (hpre1 : (runActionSubs .before t store.state none
        (store._actionSubscribers.filter (fun s => s.before.isSome))
        store._actionSubscribers store.log).2.1 = store.log ++ pre) :
    (store.dispatch (.str t) payload).2
      = .promise (dispatchOutcome entry store.state payload)
    ∧ ∃ post : List Ev,
      ((store.dispatch (.str t) payload).1).log
        = store.log ++ pre
          ++ (List.range entry.length).map (fun i => Ev.actHandlerStart t i payload)
          ++ post
      ∧ (∀ ev ∈ post, (∃ i st, ev = .afterSubCall i t st)
          ∨ (∃ i st er, ev = .errorSubCall i t st er)
          ∨ (∃ lbl er, ev = .subLoopErrorLog lbl er)) := by
  simp only [Store.dispatch, unifyObjectStyle, isObject, JVal.truthy,
    Bool.false_and, Bool.false_eq_true, if_neg, not_false_iff, asTypeString,
    hentry]
  have hout : (if 1 < entry.length then
        Except.map (fun vs => JVal.arr (JArr.ofList vs))
          (promiseAll (List.map (fun w => applyWrappedAction store.state w payload) entry))
      else
        match entry.head? with
        | some w => applyWrappedAction store.state w payload
        | none => Except.error (JVal.str "TypeError: entry[0] is not a function"))
      = dispatchOutcome entry store.state payload := rfl
  rw [hout]
  cases hres : dispatchOutcome entry store.state payload with
  | ok v =>
    obtain ⟨post, hpost1, hpost2⟩ := runActionSubs_log_shape .after t store.state none
      (List.filter (fun s => s.after.isSome)
        (runActionSubs SubPhase.before t store.state none
          (List.filter (fun s => s.before.isSome) store._actionSubscribers)
          store._actionSubscribers store.log).1)
      (runActionSubs SubPhase.before t store.state none
        (List.filter (fun s => s.before.isSome) store._actionSubscribers)
        store._actionSubscribers store.log).1
      ((runActionSubs SubPhase.before t store.state none
          (List.filter (fun s => s.before.isSome) store._actionSubscribers)
          store._actionSubscribers store.log).2.1 ++
        List.map (fun i => Ev.actHandlerStart t i payload) (List.range entry.length))
    refine ⟨rfl, post, ?_, ?_⟩
    · exact hpost1.trans (by rw [hpre1])
    · intro ev hev
      rcases hpost2 ev hev with ⟨s, _, he'⟩ | ⟨er, he'⟩
      · exact Or.inl ⟨s.id, store.state, by simpa [phaseEv] using he'⟩
      · exact Or.inr (Or.inr ⟨phaseLabel .after, er, he'⟩)
  | error e =>
    obtain ⟨post, hpost1, hpost2⟩ := runActionSubs_log_shape .error t store.state (some e)
      (List.filter (fun s => s.error.isSome)
        (runActionSubs SubPhase.before t store.state none
          (List.filter (fun s => s.before.isSome) store._actionSubscribers)
          store._actionSubscribers store.log).1)
      (runActionSubs SubPhase.before t store.state none
        (List.filter (fun s => s.before.isSome) store._actionSubscribers)
        store._actionSubscribers store.log).1
      ((runActionSubs SubPhase.before t store.state none
          (List.filter (fun s => s.before.isSome) store._actionSubscribers)
          store._actionSubscribers store.log).2.1 ++
        List.map (fun i => Ev.actHandlerStart t i payload) (List.range entry.length))
    refine ⟨rfl, post, ?_, ?_⟩
    · exact hpost1.trans (by rw [hpre1])
    · intro ev hev
      rcases hpost2 ev hev with ⟨s, _, he'⟩ | ⟨er, he'⟩
      · exact Or.inr (Or.inl ⟨s.id, store.state, e, by simpa [phaseEv] using he'⟩)
      · exact Or.inr (Or.inr ⟨phaseLabel .error, er, he'⟩)

theorem dispatch_known_parts (store : Store) (t : String) (payload : JVal)
    (entry : List WrappedAction)
    (hentry : lookupEntry store._actions t = some entry) :
    (store.dispatch (.str t) payload).2
      = .promise (dispatchOutcome entry store.state payload)
    ∧ ∃ pre post : List Ev,
      ((store.dispatch (.str t) payload).1).log
        = store.log ++ pre
          ++ (List.range entry.length).map (fun i => Ev.actHandlerStart t i payload)
          ++ post
      ∧ (∀ e ∈ pre, (∃ i, e = .beforeSubCall i t store.state)
          ∨ (∃ er, e = .subLoopErrorLog "before" er))
      ∧ (∀ ev ∈ post, (∃ i st, ev = .afterSubCall i t st)
          ∨ (∃ i st er, ev = .errorSubCall i t st er)
          ∨ (∃ lbl er, ev = .subLoopErrorLog lbl er)) := by
  obtain ⟨pre, hpre1, hpre2⟩ := runActionSubs_log_shape .before t store.state none
    (store._actionSubscribers.filter (fun s => s.before.isSome))
    store._actionSubscribers store.log
  obtain ⟨hres, post, hlog, hpost⟩ :=
    dispatch_log_eq store t payload entry pre hentry hpre1
  refine ⟨hres, pre, post, hlog, ?_, hpost⟩
  intro e he
  rcases hpre2 e he with ⟨s, _, he'⟩ | ⟨er, he'⟩
  · exact Or.inl ⟨s.id, by simpa [phaseEv] using he'⟩
  · exact Or.inr ⟨er, by simpa [phaseLabel] using he'⟩

theorem promiseAll_ok : ∀ vs : List JVal, promiseAll (vs.map Except.ok) = .ok vs := by
  intro vs
  induction vs with
  | nil => simp [promiseAll]
  | cons v rest ih => simp [promiseAll, ih, Except.map]

theorem promiseAll_first_error (e : JVal) :
    ∀ (l1 l2 : List (Except JVal JVal)),
    (∀ r ∈ l1, ∃ v, r = .ok v) →
    promiseAll (l1 ++ .error e :: l2) = .error e := by
  intro l1
  induction l1 with
  | nil => intro l2 _; simp [promiseAll]
  | cons r rest ih =>
    intro l2 h
    obtain ⟨v, hv⟩ := h r (by simp)
    subst hv
    simp [promiseAll, ih l2 (fun r hr => h r (by simp [hr])), Except.map]

/-- **C2**: For a dispatch whose type has more than one registered action
handler, every handler is started (in registration order) before the
aggregate promise is awaited, and the single returned promise resolves to
the array of all handler results in handler-registration order and rejects
with the error of the first rejecting handler; for a type with exactly one
handler, dispatch returns a promise wrapping that single result, a
non-promise return value being treated as already resolved. -/
theorem dispatch_aggregates_action_handlers
    (store : Store) (t : String) (payload : JVal) (entry : List WrappedAction)
    (hentry : lookupEntry store._actions t = some entry) :
    (1 < entry.length →
      (store.dispatch (.str t) payload).2
        = .promise ((promiseAll
            (entry.map (fun w => applyWrappedAction store.state w payload))).map
            (fun vs => JVal.arr (JArr.ofList vs))))
    ∧ (∀ vs : List JVal,
        entry.map (fun w => applyWrappedAction store.state w payload)
          = vs.map Except.ok →
        1 < entry.length →
        (store.dispatch (.str t) payload).2
          = .promise (.ok (.arr (JArr.ofList vs))))
    ∧ (∀ (l1 l2 : List WrappedAction) (w : WrappedAction) (e : JVal),
        entry = l1 ++ w :: l2 →
        (∀ w1 ∈ l1, ∃ v, applyWrappedAction store.state w1 payload = .ok v) →
        applyWrappedAction store.state w payload = .error e →
        1 < entry.length →
        (store.dispatch (.str t) payload).2 = .promise (.error e))
    ∧ (∀ w, entry = [w] →
        (store.dispatch (.str t) payload).2
          = .promise (applyWrappedAction store.state w payload))
    ∧ (∀ w v, entry = [w] →
        w.handler (getNestedState store.state w.path) payload = .val v →
        (store.dispatch (.str t) payload).2 = .promise (.ok v))
    ∧ (∃ pre post : List Ev,
        ((store.dispatch (.str t) payload).1).log
          = store.log ++ pre
            ++ (List.range entry.length).map (fun i => Ev.actHandlerStart t i payload)
            ++ post
        ∧ (∀ e ∈ pre, (∃ i, e = .beforeSubCall i t store.state)
            ∨ (∃ er, e = .subLoopErrorLog "before" er))
        ∧ (∀ ev ∈ post, (∃ i st, ev = .afterSubCall i t st)
            ∨ (∃ i st er, ev = .errorSubCall i t st er)
            ∨ (∃ lbl er, ev = .subLoopErrorLog lbl er))) := by
  obtain ⟨hres, hlog⟩ := dispatch_known_parts store t payload entry hentry
  refine ⟨?_, ?_, ?_, ?_, ?_, hlog⟩
  · intro hlen
    rw [hres, dispatchOutcome, if_pos hlen]
  · intro vs hvs hlen
    rw [hres, dispatchOutcome, if_pos hlen, hvs, promiseAll_ok]
    rfl
  · intro l1 l2 w e hsplit hok herr hlen
    rw [hres, dispatchOutcome, if_pos hlen, hsplit]
    rw [List.map_append, List.map_cons, herr]
    rw [promiseAll_first_error e (l1.map (fun w => applyWrappedAction store.state w payload))
      (l2.map (fun w => applyWrappedAction store.state w payload))
      (by intro r hr
          obtain ⟨w1, hw1, hr'⟩ := List.mem_map.mp hr
          obtain ⟨v, hv⟩ := hok w1 hw1
          exact ⟨v, by rw [← hr', hv]⟩)]
    rfl
  · intro w hw
    rw [hres, dispatchOutcome, hw]
    simp
  · intro w v hw hval
    rw [hres, dispatchOutcome, hw]
    simp [applyWrappedAction, hval]

/-- A concrete action handler returning the non-promise value `10`. -/
def aOk1 : WrappedAction := ⟨[], fun _ _ => .val (.num 10)⟩

/-- A concrete action handler returning a promise resolving to `20`. -/
def aOk2 : WrappedAction := ⟨[], fun _ _ => .prom (.ok (.num 20))⟩

/-- A concrete action handler returning a promise rejecting with `"boom"`. -/
def aBad : WrappedAction := ⟨[], fun _ _ => .prom (.error (.str "boom"))⟩

/-- A store with two-handler, single-handler and rejecting action types. -/
def actStore : Store :=
  { _committing := false
    _mutations := []
    _actions := [("two", [aOk1, aOk2]), ("one", [aOk1]), ("bad", [aOk1, aBad])]
    _wrappedGetters := []
    _modules := .mk 0 false exState [] [] [] []
    _modulesNamespaceMap := []
    _subscribers := []
    _actionSubscribers := []
    _makeLocalGettersCache := []
    state := exState
    log := [] }

theorem dispatch_aggregates_witness :
    (actStore.dispatch (.str "two") .undefined).2
      = .promise (.ok (.arr (.cons (.num 10) (.cons (.num 20) .nil))))
    ∧ (actStore.dispatch (.str "bad") .undefined).2
      = .promise (.error (.str "boom"))
    ∧ (actStore.dispatch (.str "one") .undefined).2 = .promise (.ok (.num 10)) := by
  refine ⟨?_, ?_, ?_⟩
  · have h := dispatch_aggregates_action_handlers actStore "two" .undefined
      [aOk1, aOk2] rfl
    exact h.2.1 [.num 10, .num 20] rfl (by decide)
  · have h := dispatch_aggregates_action_handlers actStore "bad" .undefined
      [aOk1, aBad] rfl
    refine h.2.2.1 [aOk1] [] aBad (.str "boom") rfl ?_ rfl (by decide)
    intro w1 hw1
    simp at hw1
    subst hw1
    exact ⟨.num 10, rfl⟩
  · have h := dispatch_aggregates_action_handlers actStore "one" .undefined
      [aOk1] rfl
    exact h.2.2.2.1 aOk1 rfl

theorem runActionSubs_until_throw (ph : SubPhase) (ty : String) (stNow : JVal)
    (err : Option JVal) :
    ∀ (pre : List ActionSub) (s : ActionSub) (rest live : List ActionSub)
      (log : List Ev) (e : JVal),
    (∀ x ∈ pre, ∀ ev, phaseField ph x ≠ some (.throws ev)) →
    phaseField ph s = some (.throws e) →
    (runActionSubs ph ty stNow err (pre ++ s :: rest) live log).2.1
      = log ++ (pre.filter (fun x => (phaseField ph x).isSome)).map
            (fun x => phaseEv ph x.id ty stNow err)
          ++ [phaseEv ph s.id ty stNow err,
              .subLoopErrorLog (phaseLabel ph) e] := by
  intro pre
  induction pre with
  | nil =>
    intro s rest live log e _ hs
    simp [runActionSubs, hs]
  | cons x pre' ih =>
    intro s rest live log e hpre hs
    cases hf : phaseField ph x with
    | none =>
      simp only [List.cons_append, runActionSubs, hf, List.append_eq]
      rw [ih s rest live log e (fun y hy => hpre y (by simp [hy])) hs]
      simp [List.filter_cons, hf]
    | some b =>
      cases b with
      | throws ev => exact absurd hf (hpre x (by simp) ev)
      | pureB =>
        simp only [List.cons_append, runActionSubs, hf, List.append_eq]
        rw [ih s rest live (log ++ [phaseEv ph x.id ty stNow err]) e
          (fun y hy => hpre y (by simp [hy])) hs]
        simp [List.filter_cons, hf]
      | unsubSelf =>
        simp only [List.cons_append, runActionSubs, hf, List.append_eq]
        rw [ih s rest (unsubscribeNow ActionSub.id x.id live)
          (log ++ [phaseEv ph x.id ty stNow err]) e
          (fun y hy => hpre y (by simp [hy])) hs]
        simp [List.filter_cons, hf]

/-- **C10**: When a `before` action subscriber throws during dispatch, the
remaining `before` subscribers in the list are skipped (the whole loop sits
in one `try`/`catch`: the new log shows exactly the earlier subscribers'
calls, the thrower's call and the caught-report — and nothing for the
rest), yet all matched handlers are still invoked and the dispatch returns
its promise normally. -/
theorem before_sub_throw_skips_rest_dispatch_proceeds
    (store : Store) (t : String) (payload : JVal) (entry : List WrappedAction)
    (l1 l2 : List ActionSub) (bsub : ActionSub) (e : JVal)
    (hentry : lookupEntry store._actions t = some entry)
    (hsubs : store._actionSubscribers = l1 ++ bsub :: l2)
    (hthrow : bsub.before = some (.throws e))
    (hl1 : ∀ x ∈ l1, ∀ ev, x.before ≠ some (.throws ev)) :
    ∃ post : List Ev,
      ((store.dispatch (.str t) payload).1).log
        = store.log
          ++ (((l1.filter (fun x => x.before.isSome)).map
                (fun x => Ev.beforeSubCall x.id t store.state))
              ++ [.beforeSubCall bsub.id t store.state,
                  .subLoopErrorLog "before" e])
          ++ (List.range entry.length).map (fun i => Ev.actHandlerStart t i payload)
          ++ post
      ∧ (∀ ev ∈ post, (∃ i st, ev = .afterSubCall i t st)
          ∨ (∃ i st er, ev = .errorSubCall i t st er)
          ∨ (∃ lbl er, ev = .subLoopErrorLog lbl er))
      ∧ (store.dispatch (.str t) payload).2
          = .promise (dispatchOutcome entry store.state payload) := by
  have hfilter : store._actionSubscribers.filter (fun s => s.before.isSome)
      = l1.filter (fun s => s.before.isSome)
        ++ bsub :: l2.filter (fun s => s.before.isSome) := by
    rw [hsubs, List.filter_append, List.filter_cons]
    simp [hthrow]
  have hpre1 := runActionSubs_until_throw .before t store.state none
    (l1.filter (fun s => s.before.isSome)) bsub
    (l2.filter (fun s => s.before.isSome)) store._actionSubscribers store.log e
    (by intro x hx ev
        have hx' := List.mem_filter.mp hx
        exact hl1 x hx'.1 ev)
    hthrow
  rw [← hfilter] at hpre1
  have hpre1' : (runActionSubs .before t store.state none
      (store._actionSubscribers.filter (fun s => s.before.isSome))
      store._actionSubscribers store.log).2.1
      = store.log
        ++ (((l1.filter (fun x => x.before.isSome)).map
              (fun x => Ev.beforeSubCall x.id t store.state))
            ++ [.beforeSubCall bsub.id t store.state,
                .subLoopErrorLog "before" e]) := by
    rw [hpre1]
    have hff : (l1.filter (fun s => s.before.isSome)).filter
        (fun x => (phaseField .before x).isSome)
        = l1.filter (fun s => s.before.isSome) := by
      rw [List.filter_filter]
      apply List.filter_congr
      intro x _
      simp [phaseField]
    rw [hff]
    simp [phaseEv, phaseLabel, List.append_assoc]
  obtain ⟨hres, post, hlog, hpost⟩ :=
    dispatch_log_eq store t payload entry _ hentry hpre1'
  exact ⟨post, hlog, hpost, hres⟩

/-- A store with a two-handler action type and a `before` subscriber list
whose middle member throws. -/
def bStore : Store :=
  { _committing := false
    _mutations := []
    _actions := [("two", [aOk1, aOk2])]
    _wrappedGetters := []
    _modules := .mk 0 false exState [] [] [] []
    _modulesNamespaceMap := []
    _subscribers := []
    _actionSubscribers :=
      [⟨1, some .pureB, none, none⟩,
       ⟨2, some (.throws (.str "befboom")), none, none⟩,
       ⟨3, some .pureB, none, none⟩]
    _makeLocalGettersCache := []
    state := exState
    log := [] }

theorem before_sub_throw_witness :
    ∃ post : List Ev,
      ((bStore.dispatch (.str "two") .undefined).1).log
        = bStore.log
          ++ (((([⟨1, some .pureB, none, none⟩] : List ActionSub).filter
                  (fun x => x.before.isSome)).map
                (fun x => Ev.beforeSubCall x.id "two" bStore.state))
              ++ [.beforeSubCall 2 "two" bStore.state,
                  .subLoopErrorLog "before" (.str "befboom")])
          ++ (List.range ([aOk1, aOk2] : List WrappedAction).length).map
              (fun i => Ev.actHandlerStart "two" i .undefined)
          ++ post
      ∧ (∀ ev ∈ post, (∃ i st, ev = .afterSubCall i "two" st)
          ∨ (∃ i st er, ev = .errorSubCall i "two" st er)
          ∨ (∃ lbl er, ev = .subLoopErrorLog lbl er))
      ∧ (bStore.dispatch (.str "two") .undefined).2
          = .promise (dispatchOutcome [aOk1, aOk2] bStore.state .undefined) := by
  exact before_sub_throw_skips_rest_dispatch_proceeds bStore "two" .undefined
    [aOk1, aOk2] [⟨1, some .pureB, none, none⟩] [⟨3, some .pureB, none, none⟩]
    ⟨2, some (.throws (.str "befboom")), none, none⟩ (.str "befboom") rfl rfl rfl
    (by intro x hx ev
        simp at hx
        subst hx
        simp)

/-- A store whose commit subscriber list starts with a throwing
subscriber. -/
def c4Store : Store :=
  { _committing := false
    _mutations := [("inc", [⟨[], incHandler⟩])]
    _actions := [("inc", [aOk1])]
    _wrappedGetters := []
    _modules := .mk 0 false exState [] [] [] []
    _modulesNamespaceMap := []
    _subscribers := [⟨1, .throws (.str "boom")⟩, ⟨2, .pureB⟩]
    _actionSubscribers := []
    _makeLocalGettersCache := []
    state := exState
    log := [] }

/-- Counterexample to **C4** as stated: an exception thrown by a *commit*
subscriber is not caught — it propagates out of `commit` (`some "boom"`
below) and interrupts the notification flow: the second subscriber is
never invoked (the whole log of the call holds only the handler call and
the throwing subscriber's call). -/
theorem commit_subscriber_throw_counterexample :
    (c4Store.commit (.str "inc") (.num 1) .undefined).2 = some (.str "boom")
    ∧ ((c4Store.commit (.str "inc") (.num 1) .undefined).1).log
        = [.mutHandlerCall "inc" 0 exState (.num 1) true,
           .commitSubCall 1 "inc" (.num 1) (.obj (.cons "count" (.num 2) .nil))] := by
  decide

theorem runCommitSubs_throw (ty : String) (payload : JVal) (stNow : JVal) :
    ∀ (l1 : List Subscriber) (s : Subscriber) (l2 live : List Subscriber)
      (log : List Ev) (e : JVal),
    (∀ x ∈ l1, ∀ ev, x.behavior ≠ .throws ev) →
    s.behavior = .throws e →
    (runCommitSubs ty payload stNow (l1 ++ s :: l2) live log).2.2 = some e
    ∧ (runCommitSubs ty payload stNow (l1 ++ s :: l2) live log).2.1
      = log ++ l1.map (fun x => Ev.commitSubCall x.id ty payload stNow)
          ++ [.commitSubCall s.id ty payload stNow] := by
  intro l1
  induction l1 with
  | nil =>
    intro s l2 live log e _ hs
    constructor
    · simp [runCommitSubs, hs]
    · simp [runCommitSubs, hs]
  | cons x l1' ih =>
    intro s l2 live log e hl1 hs
    cases hb : x.behavior with
    | throws ev => exact absurd hb (hl1 x (by simp) ev)
    | pureB =>
      obtain ⟨ih1, ih2⟩ := ih s l2 live
        (log ++ [.commitSubCall x.id ty payload stNow]) e
        (fun y hy => hl1 y (by simp [hy])) hs
      constructor
      · simpa [runCommitSubs, hb, List.append_eq] using ih1
      · simp only [List.cons_append, runCommitSubs, hb, List.append_eq]
        rw [ih2]
        simp
    | unsubSelf =>
      obtain ⟨ih1, ih2⟩ := ih s l2 (unsubscribeNow Subscriber.id x.id live)
        (log ++ [.commitSubCall x.id ty payload stNow]) e
        (fun y hy => hl1 y (by simp [hy])) hs
      constructor
      · simpa [runCommitSubs, hb, List.append_eq] using ih1
      · simp only [List.cons_append, runCommitSubs, hb, List.append_eq]
        rw [ih2]
        simp

/-- **C4 (amended)**: exceptions thrown by `before`/`after`/`error` action
subscribers during dispatch are caught and reported and never change the
dispatch outcome — the returned promise is the same whatever the action
subscriber list holds — whereas an exception thrown by a commit subscriber
is NOT caught: it propagates out of `commit` (after every mutation handler
has completed and the earlier subscribers were notified, each observing
the resulting state) and the remaining commit subscribers are skipped. -/
theorem subscriber_throw_amended (store : Store) (t : String) (payload : JVal)
    (entry : List WrappedAction) (subs2 : List ActionSub)
    (me : List WrappedMutation) (l1 l2 : List Subscriber) (s : Subscriber)
    (e : JVal)
    (hentry : lookupEntry store._actions t = some entry)
    (hme : lookupEntry store._mutations t = some me)
    (hsubs : store._subscribers = l1 ++ s :: l2)
    (hthrow : s.behavior = .throws e)
    (hl1 : ∀ x ∈ l1, ∀ ev, x.behavior ≠ .throws ev) :
    (store.dispatch (.str t) payload).2
      = (({ store with _actionSubscribers := subs2 }).dispatch (.str t) payload).2
    ∧ (store.commit (.str t) payload .undefined).2 = some e
    ∧ ((store.commit (.str t) payload .undefined).1).state
        = mutFoldState payload me store.state
    ∧ ((store.commit (.str t) payload .undefined).1).log
        = store.log ++ mutCallEvs t payload true 0 me store.state
          ++ l1.map (fun x => Ev.commitSubCall x.id t payload
              (mutFoldState payload me store.state))
          ++ [.commitSubCall s.id t payload (mutFoldState payload me store.state)] := by
  have hck := commit_known_eq store t payload .undefined me hme
  obtain ⟨hthr1, hthr2⟩ := runCommitSubs_throw t payload
    (mutFoldState payload me store.state) l1 s l2 (l1 ++ s :: l2)
    (store.log ++ mutCallEvs t payload true 0 me store.state) e hl1 hthrow
  refine ⟨?_, ?_, ?_, ?_⟩
  · have h1 := (dispatch_known_parts store t payload entry hentry).1
    have h2 := (dispatch_known_parts { store with _actionSubscribers := subs2 }
      t payload entry hentry).1
    rw [h1, h2]
  · rw [hck]
    simp only [hsubs]
    exact hthr1
  · rw [hck]
  · rw [hck]
    simp only [hsubs]
    rw [hthr2]

/-- A store with a mutation and an action both named `"inc"`, and a commit
subscriber list `[pure, throwing, pure]`. -/
def c4aStore : Store :=
  { _committing := false
    _mutations := [("inc", [⟨[], incHandler⟩])]
    _actions := [("inc", [aOk1])]
    _wrappedGetters := []
    _modules := .mk 0 false exState [] [] [] []
    _modulesNamespaceMap := []
    _subscribers := [⟨1, .pureB⟩, ⟨2, .throws (.str "boom")⟩, ⟨3, .pureB⟩]
    _actionSubscribers := []
    _makeLocalGettersCache := []
    state := exState
    log := [] }

theorem subscriber_throw_amended_witness :
    (c4aStore.dispatch (.str "inc") (.num 1)).2
      = (({ c4aStore with
            _actionSubscribers := [⟨9, some (.throws (.str "x")), none, none⟩] }).dispatch
          (.str "inc") (.num 1)).2
    ∧ (c4aStore.commit (.str "inc") (.num 1) .undefined).2 = some (.str "boom")
    ∧ ((c4aStore.commit (.str "inc") (.num 1) .undefined).1).state
        = mutFoldState (.num 1) [⟨[], incHandler⟩] c4aStore.state
    ∧ ((c4aStore.commit (.str "inc") (.num 1) .undefined).1).log
        = c4aStore.log ++ mutCallEvs "inc" (.num 1) true 0 [⟨[], incHandler⟩] c4aStore.state
          ++ ([⟨1, .pureB⟩] : List Subscriber).map (fun x => Ev.commitSubCall x.id "inc" (.num 1)
              (mutFoldState (.num 1) [⟨[], incHandler⟩] c4aStore.state))
          ++ [.commitSubCall 2 "inc" (.num 1)
              (mutFoldState (.num 1) [⟨[], incHandler⟩] c4aStore.state)] := by
  exact subscriber_throw_amended c4aStore "inc" (.num 1) [aOk1]
    [⟨9, some (.throws (.str "x")), none, none⟩] [⟨[], incHandler⟩]
    [⟨1, .pureB⟩] [⟨3, .pureB⟩] ⟨2, .throws (.str "boom")⟩ (.str "boom")
    rfl rfl rfl rfl
    (by intro x hx ev
        simp at hx
        subst hx
        simp)

/-! ## Subscription safety (snapshot + splice) -/

theorem unsubscribeNow_subset {α : Type} (idOf : α → Nat) (i : Nat) :
    ∀ (l : List α) (y : α), y ∈ unsubscribeNow idOf i l → y ∈ l := by
  intro l
  induction l with
  | nil => intro y hy; simp [unsubscribeNow] at hy
  | cons x rest ih =>
    intro y hy
    simp only [unsubscribeNow] at hy
    by_cases h : idOf x = i
    · rw [if_pos h] at hy
      exact List.mem_cons_of_mem x hy
    · rw [if_neg h] at hy
      rcases List.mem_cons.mp hy with h' | h'
      · simp [h']
      · exact List.mem_cons_of_mem x (ih y h')

theorem unsubscribeNow_id_not_mem {α : Type} (idOf : α → Nat) (i : Nat) :
    ∀ l : List α, (l.map idOf).Nodup →
    i ∉ (unsubscribeNow idOf i l).map idOf := by
  intro l
  induction l with
  | nil => intro _; simp [unsubscribeNow]
  | cons x rest ih =>
    intro hnd
    simp only [List.map_cons, List.nodup_cons] at hnd
    simp only [unsubscribeNow]
    by_cases h : idOf x = i
    · rw [if_pos h]
      rw [← h]
      exact hnd.1
    · rw [if_neg h]
      simp only [List.map_cons, List.mem_cons]
      intro hc
      rcases hc with hc | hc
      · exact h hc.symm
      · exact ih hnd.2 hc

theorem unsubscribeNow_nodup {α : Type} (idOf : α → Nat) (i : Nat) :
    ∀ l : List α, (l.map idOf).Nodup →
    ((unsubscribeNow idOf i l).map idOf).Nodup := by
  intro l
  induction l with
  | nil => intro _; simp [unsubscribeNow]
  | cons x rest ih =>
    intro hnd
    simp only [List.map_cons, List.nodup_cons] at hnd
    simp only [unsubscribeNow]
    by_cases h : idOf x = i
    · rw [if_pos h]; exact hnd.2
    · rw [if_neg h]
      simp only [List.map_cons, List.nodup_cons]
      refine ⟨?_, ih hnd.2⟩
      intro hc
      obtain ⟨y, hy, hy'⟩ := List.mem_map.mp hc
      exact hnd.1 (List.mem_map.mpr ⟨y, unsubscribeNow_subset idOf i rest y hy, hy'⟩)

theorem runCommitSubs_noThrow (ty : String) (payload : JVal) (stNow : JVal) :
    ∀ (snap live : List Subscriber) (log : List Ev),
    (∀ s ∈ snap, ∀ e, s.behavior ≠ .throws e) →
    (runCommitSubs ty payload stNow snap live log).2.1
      = log ++ snap.map (fun s => Ev.commitSubCall s.id ty payload stNow)
    ∧ (runCommitSubs ty payload stNow snap live log).2.2 = none := by
  intro snap
  induction snap with
  | nil => intro live log _; simp [runCommitSubs]
  | cons sub rest ih =>
    intro live log h
    cases hb : sub.behavior with
    | throws e => exact absurd hb (h sub (by simp) e)
    | pureB =>
      obtain ⟨ih1, ih2⟩ := ih live (log ++ [.commitSubCall sub.id ty payload stNow])
        (fun y hy => h y (by simp [hy]))
      constructor
      · simp only [runCommitSubs, hb]
        rw [ih1]
        simp
      · simpa [runCommitSubs, hb] using ih2
    | unsubSelf =>
      obtain ⟨ih1, ih2⟩ := ih (unsubscribeNow Subscriber.id sub.id live)
        (log ++ [.commitSubCall sub.id ty payload stNow])
        (fun y hy => h y (by simp [hy]))
      constructor
      · simp only [runCommitSubs, hb]
        rw [ih1]
        simp
      · simpa [runCommitSubs, hb] using ih2

theorem runCommitSubs_live_subset (ty : String) (payload : JVal) (stNow : JVal) :
    ∀ (snap live : List Subscriber) (log : List Ev) (y : Subscriber),
    y ∈ (runCommitSubs ty payload stNow snap live log).1 → y ∈ live := by
  intro snap
  induction snap with
  | nil => intro live log y hy; simpa [runCommitSubs] using hy
  | cons sub rest ih =>
    intro live log y hy
    cases hb : sub.behavior with
    | throws e =>
      simp only [runCommitSubs, hb] at hy
      exact hy
    | pureB =>
      simp only [runCommitSubs, hb] at hy
      exact ih live _ y hy
    | unsubSelf =>
      simp only [runCommitSubs, hb] at hy
      exact unsubscribeNow_subset Subscriber.id sub.id live y
        (ih (unsubscribeNow Subscriber.id sub.id live) _ y hy)

theorem runCommitSubs_removes (ty : String) (payload : JVal) (stNow : JVal) :
    ∀ (snap live : List Subscriber) (log : List Ev) (fn : Subscriber),
    fn ∈ snap → fn.behavior = .unsubSelf →
    (∀ s ∈ snap, ∀ e, s.behavior ≠ .throws e) →
    (live.map Subscriber.id).Nodup →
    fn.id ∉ ((runCommitSubs ty payload stNow snap live log).1).map Subscriber.id := by
  intro snap
  induction snap with
  | nil => intro live log fn hfn; simp at hfn
  | cons sub rest ih =>
    intro live log fn hfn hbe hnothrow hnd
    by_cases hsub : sub.id = fn.id ∧ sub.behavior = .unsubSelf
    · -- the head step removes fn's id from the live list, and the rest of
      -- the loop only ever removes elements
      simp only [runCommitSubs, hsub.2]
      intro hc
      obtain ⟨y, hy, hy'⟩ := List.mem_map.mp hc
      have hylive := runCommitSubs_live_subset ty payload stNow rest
        (unsubscribeNow Subscriber.id sub.id live) _ y hy
      have : fn.id ∉ (unsubscribeNow Subscriber.id sub.id live).map Subscriber.id := by
        rw [← hsub.1]
        exact unsubscribeNow_id_not_mem Subscriber.id sub.id live hnd
      exact this (List.mem_map.mpr ⟨y, hylive, hy'⟩)
    · have hfn' : fn ∈ rest := by
        rcases List.mem_cons.mp hfn with h | h
        · exact absurd ⟨by rw [← h], by rw [← h]; exact hbe⟩ hsub
        · exact h
      cases hb : sub.behavior with
      | throws e => exact absurd hb (hnothrow sub (by simp) e)
      | pureB =>
        simp only [runCommitSubs, hb]
        exact ih live _ fn hfn' hbe (fun y hy => hnothrow y (by simp [hy])) hnd
      | unsubSelf =>
        simp only [runCommitSubs, hb]
        exact ih (unsubscribeNow Subscriber.id sub.id live) _ fn hfn' hbe
          (fun y hy => hnothrow y (by simp [hy]))
          (unsubscribeNow_nodup Subscriber.id sub.id live hnd)

theorem mutCallEvs_shape (ty : String) (payload : JVal) (c : Bool) :
    ∀ (l : List WrappedMutation) (i : Nat) (st : JVal) (e : Ev),
    e ∈ mutCallEvs ty payload c i l st →
    ∃ j ls, e = .mutHandlerCall ty j ls payload c := by
  intro l
  induction l with
  | nil => intro i st e he; simp [mutCallEvs] at he
  | cons w rest ih =>
    intro i st e he
    simp only [mutCallEvs, List.mem_cons] at he
    rcases he with h | h
    · exact ⟨i, getNestedState st w.path, h⟩
    · exact ih (i + 1) (applyWrappedMutation st w payload) e h

theorem commit_new_events_ids (store : Store) (t : String) (payload opts : JVal)
    (entry : List WrappedMutation)
    (hentry : lookupEntry store._mutations t = some entry) :
    ∃ evs : List Ev,
      ((store.commit (.str t) payload opts).1).log = store.log ++ evs
      ∧ ∀ (i : Nat) (pl st : JVal), Ev.commitSubCall i t pl st ∈ evs →
          i ∈ store._subscribers.map Subscriber.id := by
  obtain ⟨subEvs, h1, h2⟩ := runCommitSubs_log_shape t payload
    (mutFoldState payload entry store.state) store._subscribers store._subscribers
    (store.log ++ mutCallEvs t payload true 0 entry store.state)
  refine ⟨mutCallEvs t payload true 0 entry store.state ++ subEvs, ?_, ?_⟩
  · rw [commit_known_eq store t payload opts entry hentry]
    simp only
    rw [h1]
    simp [List.append_assoc]
  · intro i pl st hc
    rcases List.mem_append.mp hc with h | h
    · obtain ⟨j, ls, hj⟩ := mutCallEvs_shape t payload true entry 0 store.state _ h
      simp at hj
    · obtain ⟨s, hs, he⟩ := h2 _ h
      simp only [Ev.commitSubCall.injEq] at he
      rw [he.1]
      exact List.mem_map.mpr ⟨s, hs, rfl⟩

/-- **C7**: `subscribe(fn)` appends only if absent (re-subscribing a
present callback leaves the list unchanged) and returns an unsubscribe
capability; a subscriber that calls its own unsubscribe capability during
a commit notification does not disturb the ongoing loop — every
subscriber present at commit time is notified exactly once, in
subscription order, because the list is snapshotted (`slice()`) before
iteration — and it is removed from the live list, so no subsequent commit
calls it again. -/
theorem subscribe_unsub_during_commit
    (store : Store) (fn : Subscriber) (prepend : Bool)
    (t t2 : String) (payload payload2 opts opts2 : JVal)
    (entry entry2 : List WrappedMutation)
    (hfn : fn ∈ store._subscribers)
    (hbe : fn.behavior = .unsubSelf)
    (hnodup : (store._subscribers.map Subscriber.id).Nodup)
    (hnothrow : ∀ s ∈ store._subscribers, ∀ e, s.behavior ≠ .throws e)
    (hentry : lookupEntry store._mutations t = some entry)
    (hentry2 : lookupEntry store._mutations t2 = some entry2) :
    store.subscribe fn prepend = store
    ∧ ((store.commit (.str t) payload opts).1).log
        = store.log ++ mutCallEvs t payload true 0 entry store.state
          ++ store._subscribers.map (fun s => Ev.commitSubCall s.id t payload
              (mutFoldState payload entry store.state))
    ∧ fn.id ∉ (((store.commit (.str t) payload opts).1)._subscribers.map
        Subscriber.id)
    ∧ ∃ evs2 : List Ev,
        ((((store.commit (.str t) payload opts).1).commit
            (.str t2) payload2 opts2).1).log
          = (((store.commit (.str t) payload opts).1)).log ++ evs2
        ∧ ∀ (pl st : JVal), Ev.commitSubCall fn.id t2 pl st ∉ evs2 := by
  have hck := commit_known_eq store t payload opts entry hentry
  obtain ⟨hnt1, _⟩ := runCommitSubs_noThrow t payload
    (mutFoldState payload entry store.state) store._subscribers
    store._subscribers (store.log ++ mutCallEvs t payload true 0 entry store.state)
    hnothrow
  have hsub3 : fn.id ∉ (((store.commit (.str t) payload opts).1)._subscribers.map
      Subscriber.id) := by
    rw [hck]
    exact runCommitSubs_removes t payload _ store._subscribers store._subscribers
      _ fn hfn hbe hnothrow hnodup
  refine ⟨?_, ?_, hsub3, ?_⟩
  · have hany : store._subscribers.any (fun s => s.id = fn.id) = true :=
      List.any_eq_true.mpr ⟨fn, hfn, by simp⟩
    simp [Store.subscribe, genericSubscribe, hany]
  · rw [hck]
    simp only
    rw [hnt1]
  · have hmut1 : ((store.commit (.str t) payload opts).1)._mutations
        = store._mutations := by rw [hck]
    obtain ⟨evs2, he1, he2⟩ := commit_new_events_ids
      ((store.commit (.str t) payload opts).1) t2 payload2 opts2 entry2
      (by rw [hmut1]; exact hentry2)
    refine ⟨evs2, he1, ?_⟩
    intro pl st hc
    exact hsub3 (he2 fn.id pl st hc)

/-- A store whose middle commit subscriber unsubscribes itself when
notified. -/
def c7Store : Store :=
  { _committing := false
    _mutations := [("inc", [⟨[], incHandler⟩])]
    _actions := []
    _wrappedGetters := []
    _modules := .mk 0 false exState [] [] [] []
    _modulesNamespaceMap := []
    _subscribers := [⟨1, .pureB⟩, ⟨2, .unsubSelf⟩, ⟨3, .pureB⟩]
    _actionSubscribers := []
    _makeLocalGettersCache := []
    state := exState
    log := [] }

theorem subscribe_unsub_witness :
    c7Store.subscribe ⟨2, .unsubSelf⟩ false = c7Store
    ∧ ((c7Store.commit (.str "inc") (.num 1) .undefined).1).log
        = c7Store.log ++ mutCallEvs "inc" (.num 1) true 0 [⟨[], incHandler⟩] c7Store.state
          ++ c7Store._subscribers.map (fun s => Ev.commitSubCall s.id "inc" (.num 1)
              (mutFoldState (.num 1) [⟨[], incHandler⟩] c7Store.state))
    ∧ (2 : Nat) ∉ (((c7Store.commit (.str "inc") (.num 1) .undefined).1)._subscribers.map
        Subscriber.id)
    ∧ ∃ evs2 : List Ev,
        ((((c7Store.commit (.str "inc") (.num 1) .undefined).1).commit
            (.str "inc") (.num 2) .undefined).1).log
          = (((c7Store.commit (.str "inc") (.num 1) .undefined).1)).log ++ evs2
        ∧ ∀ (pl st : JVal), Ev.commitSubCall 2 "inc" pl st ∉ evs2 := by
  exact subscribe_unsub_during_commit c7Store ⟨2, .unsubSelf⟩ false "inc" "inc"
    (.num 1) (.num 2) .undefined .undefined [⟨[], incHandler⟩] [⟨[], incHandler⟩]
    (by decide) rfl (by decide)
    (by intro s hs e
        simp [c7Store] at hs
        rcases hs with h | h | h <;> (subst h; simp))
    rfl rfl

/-! ## Install-walk invariants -/

theorem lookupEntry_cons_of_ne {α : Type} (p : String × α)
    (m : List (String × α)) (k : String) (hp : ¬ p.1 = k) :
    lookupEntry (p :: m) k = lookupEntry m k := by
  simp only [lookupEntry]
  rw [List.find?_cons_of_neg _ (by simp [hp])]

theorem lookupEntry_map_set {α : Type} (k : String) (v : α) :
    ∀ m : List (String × α), m.any (fun p => p.1 = k) = true →
    lookupEntry (m.map (fun p => if p.1 = k then (k, v) else p)) k = some v := by
  intro m
  induction m with
  | nil => intro h; simp at h
  | cons p rest ih =>
    intro h
    by_cases hp : p.1 = k
    · simp [lookupEntry, hp]
    · have hr : rest.any (fun p => p.1 = k) = true := by
        simp only [List.any_cons] at h
        simpa [hp] using h
      simp only [List.map_cons, if_neg hp]
      rw [lookupEntry_cons_of_ne p _ k hp]
      exact ih hr

theorem lookupEntry_append_single {α : Type} (k : String) (v : α) :
    ∀ m : List (String × α), m.any (fun p => p.1 = k) = false →
    lookupEntry (m ++ [(k, v)]) k = some v := by
  intro m
  induction m with
  | nil => intro _; simp [lookupEntry]
  | cons p rest ih =>
    intro h
    simp only [List.any_cons, Bool.or_eq_false_iff] at h
    have hp : ¬(p.1 = k) := by simpa using h.1
    rw [List.cons_append, lookupEntry_cons_of_ne p _ k hp]
    exact ih h.2

theorem lookupEntry_setEntry_self {α : Type} (m : List (String × α)) (k : String)
    (v : α) : lookupEntry (setEntry m k v) k = some v := by
  cases h : m.any (fun p => p.1 = k) with
  | true =>
    simp only [setEntry, h, if_true]
    exact lookupEntry_map_set k v m h
  | false =>
    simp only [setEntry, h, Bool.false_eq_true, if_false]
    exact lookupEntry_append_single k v m h

theorem foldRegisterMutations_fields (path : List String) (ns : String) :
    ∀ (l : List (String × (JVal → JVal → JVal))) (s : Store),
    (l.foldl (fun st kv => registerMutation st (ns ++ kv.1) kv.2 path) s)._modulesNamespaceMap
        = s._modulesNamespaceMap
    ∧ (l.foldl (fun st kv => registerMutation st (ns ++ kv.1) kv.2 path) s).log = s.log
    ∧ (l.foldl (fun st kv => registerMutation st (ns ++ kv.1) kv.2 path) s)._committing
        = s._committing
    ∧ (l.foldl (fun st kv => registerMutation st (ns ++ kv.1) kv.2 path) s).state
        = s.state := by
  intro l
  induction l with
  | nil => intro s; simp
  | cons kv rest ih =>
    intro s
    simp only [List.foldl_cons]
    exact ih (registerMutation s (ns ++ kv.1) kv.2 path)

theorem foldRegisterActions_fields (path : List String) (ns : String) :
    ∀ (l : List (String × ActionDef)) (s : Store),
    (l.foldl (fun st kv =>
        registerAction st (if kv.2.root then kv.1 else ns ++ kv.1) kv.2.handler path) s)._modulesNamespaceMap
        = s._modulesNamespaceMap
    ∧ (l.foldl (fun st kv =>
        registerAction st (if kv.2.root then kv.1 else ns ++ kv.1) kv.2.handler path) s).log
        = s.log
    ∧ (l.foldl (fun st kv =>
        registerAction st (if kv.2.root then kv.1 else ns ++ kv.1) kv.2.handler path) s)._committing
        = s._committing
    ∧ (l.foldl (fun st kv =>
        registerAction st (if kv.2.root then kv.1 else ns ++ kv.1) kv.2.handler path) s).state
        = s.state := by
  intro l
  induction l with
  | nil => intro s; simp
  | cons kv rest ih =>
    intro s
    simp only [List.foldl_cons]
    exact ih _

theorem foldRegisterGetters_fields (path : List String) (ns : String) :
    ∀ (l : List (String × (JVal → JVal → JVal))) (s : Store),
    (l.foldl (fun st kv => registerGetter st (ns ++ kv.1) kv.2 path) s)._modulesNamespaceMap
        = s._modulesNamespaceMap
    ∧ (l.foldl (fun st kv => registerGetter st (ns ++ kv.1) kv.2 path) s)._committing
        = s._committing
    ∧ (l.foldl (fun st kv => registerGetter st (ns ++ kv.1) kv.2 path) s).state
        = s.state
    ∧ ∃ extra : List Ev,
        (l.foldl (fun st kv => registerGetter st (ns ++ kv.1) kv.2 path) s).log
          = s.log ++ extra := by
  intro l
  induction l with
  | nil => intro s; exact ⟨rfl, rfl, rfl, [], by simp⟩
  | cons kv rest ih =>
    intro s
    simp only [List.foldl_cons]
    obtain ⟨h1, h2, h3, extra, h4⟩ := ih (registerGetter s (ns ++ kv.1) kv.2 path)
    by_cases hg : (lookupEntry s._wrappedGetters (ns ++ kv.1)).isSome
    · refine ⟨?_, ?_, ?_, ?_⟩
      · rw [h1]; simp [registerGetter, hg]
      · rw [h2]; simp [registerGetter, hg]
      · rw [h3]; simp [registerGetter, hg]
      · refine ⟨[.duplicateGetterLog (ns ++ kv.1)] ++ extra, ?_⟩
        rw [h4]
        simp [registerGetter, hg]
    · refine ⟨?_, ?_, ?_, ?_⟩
      · rw [h1]; simp [registerGetter, hg]
      · rw [h2]; simp [registerGetter, hg]
      · rw [h3]; simp [registerGetter, hg]
      · refine ⟨extra, ?_⟩
        rw [h4]
        simp [registerGetter, hg]

theorem foldRegisterMutations_nsMap (path : List String) (ns : String)
    (l : List (String × (JVal → JVal → JVal))) (s : Store) :
    (l.foldl (fun st kv => registerMutation st (ns ++ kv.1) kv.2 path) s)._modulesNamespaceMap
      = s._modulesNamespaceMap := (foldRegisterMutations_fields path ns l s).1

theorem foldRegisterMutations_log (path : List String) (ns : String)
    (l : List (String × (JVal → JVal → JVal))) (s : Store) :
    (l.foldl (fun st kv => registerMutation st (ns ++ kv.1) kv.2 path) s).log
      = s.log := (foldRegisterMutations_fields path ns l s).2.1

theorem foldRegisterMutations_committing (path : List String) (ns : String)
    (l : List (String × (JVal → JVal → JVal))) (s : Store) :
    (l.foldl (fun st kv => registerMutation st (ns ++ kv.1) kv.2 path) s)._committing
      = s._committing := (foldRegisterMutations_fields path ns l s).2.2.1

theorem foldRegisterActions_nsMap (path : List String) (ns : String)
    (l : List (String × ActionDef)) (s : Store) :
    (l.foldl (fun st kv =>
        registerAction st (if kv.2.root then kv.1 else ns ++ kv.1) kv.2.handler path) s)._modulesNamespaceMap
      = s._modulesNamespaceMap := (foldRegisterActions_fields path ns l s).1

theorem foldRegisterActions_log (path : List String) (ns : String)
    (l : List (String × ActionDef)) (s : Store) :
    (l.foldl (fun st kv =>
        registerAction st (if kv.2.root then kv.1 else ns ++ kv.1) kv.2.handler path) s).log
      = s.log := (foldRegisterActions_fields path ns l s).2.1

theorem foldRegisterActions_committing (path : List String) (ns : String)
    (l : List (String × ActionDef)) (s : Store) :
    (l.foldl (fun st kv =>
        registerAction st (if kv.2.root then kv.1 else ns ++ kv.1) kv.2.handler path) s)._committing
      = s._committing := (foldRegisterActions_fields path ns l s).2.2.1

theorem foldRegisterGetters_nsMap (path : List String) (ns : String)
    (l : List (String × (JVal → JVal → JVal))) (s : Store) :
    (l.foldl (fun st kv => registerGetter st (ns ++ kv.1) kv.2 path) s)._modulesNamespaceMap
      = s._modulesNamespaceMap := (foldRegisterGetters_fields path ns l s).1

theorem foldRegisterGetters_committing (path : List String) (ns : String)
    (l : List (String × (JVal → JVal → JVal))) (s : Store) :
    (l.foldl (fun st kv => registerGetter st (ns ++ kv.1) kv.2 path) s)._committing
      = s._committing := (foldRegisterGetters_fields path ns l s).2.1

theorem foldRegisterGetters_log_mem (path : List String) (ns : String)
    (l : List (String × (JVal → JVal → JVal))) (s : Store) (e : Ev)
    (he : e ∈ s.log) :
    e ∈ (l.foldl (fun st kv => registerGetter st (ns ++ kv.1) kv.2 path) s).log := by
  obtain ⟨_, _, _, extra, h4⟩ := foldRegisterGetters_fields path ns l s
  rw [h4]
  exact List.mem_append_left _ he

theorem duplicate_registration_amended
    (store : Store) (rootState : JVal) (path : List String) (mod : ModuleT)
    (hot : Bool) (oldMid : Nat)
    (hns : mod.namespaced = true)
    (hch : mod.children = [])
    (hdup : lookupEntry store._modulesNamespaceMap
        (getNamespace store._modules path) = some oldMid) :
    lookupEntry
        ((installModule store rootState path mod hot).1)._modulesNamespaceMap
        (getNamespace store._modules path) = some mod.mid
    ∧ Ev.duplicateNamespaceLog (getNamespace store._modules path)
        ∈ ((installModule store rootState path mod hot).1).log
    ∧ (∀ (s : Store) (ty : String) (raw : JVal → JVal → JVal) (p : List String),
        (lookupEntry s._wrappedGetters ty).isSome = true →
        registerGetter s ty raw p
          = { s with log := s.log ++ [.duplicateGetterLog ty] }) := by
  refine ⟨?_, ?_, ?_⟩
  · simp only [installModule, hch, installChildren, hns, hdup,
      foldRegisterGetters_nsMap, foldRegisterActions_nsMap,
      foldRegisterMutations_nsMap, Option.isSome_some, if_true]
    by_cases hc : (!path.isEmpty && !hot) = true
    · by_cases hk : (getNestedState rootState path.dropLast).hasKey
          (path.getLast?.getD "") = true
      · simp only [hc, if_true, hk, _withCommit]
        exact lookupEntry_setEntry_self _ _ _
      · simp only [hc, if_true, hk, if_false, _withCommit]
        exact lookupEntry_setEntry_self _ _ _
    · simp only [hc, if_false, _withCommit]
      exact lookupEntry_setEntry_self _ _ _
  · simp only [installModule, hch, installChildren, hns, hdup,
      Option.isSome_some, if_true]
    apply foldRegisterGetters_log_mem
    rw [foldRegisterActions_log, foldRegisterMutations_log]
    by_cases hc : (!path.isEmpty && !hot) = true
    · by_cases hk : (getNestedState rootState path.dropLast).hasKey
          (path.getLast?.getD "") = true
      · simp only [hc, if_true, hk, _withCommit]
        simp
      · simp only [hc, if_true, hk, if_false, _withCommit]
        simp
    · simp only [hc, if_false, _withCommit]
      simp
  · intro s ty raw p hg
    simp [registerGetter, hg]

/-- Root state for the namespace-collision scenario. -/
def nsRootSt : JVal := .obj (.cons "a" (.num 7) .nil)

/-- A namespaced module `x` at the root (module identity 1). -/
def nsModX1 : ModuleT := .mk 1 true (.obj (.cons "p" (.num 1) .nil)) [] [] [] []

/-- A namespaced module `x` nested under the unnamespaced `a` (identity 3):
its namespace is also `"x/"`. -/
def nsModX3 : ModuleT := .mk 3 true (.obj (.cons "q" (.num 2) .nil)) [] [] [] []

/-- The unnamespaced module `a` (identity 2) holding the second `x`. -/
def nsModA2 : ModuleT := .mk 2 false (.obj .nil) [] [] [] [("x", nsModX3)]

/-- The root module: children `x` (installed first) and `a` (whose child
`x` collides on namespace `"x/"`). -/
def nsRootMod : ModuleT := .mk 0 false nsRootSt [] [] [] [("x", nsModX1), ("a", nsModA2)]

def nsStore : Store :=
  { _committing := false
    _mutations := []
    _actions := []
    _wrappedGetters := []
    _modules := nsRootMod
    _modulesNamespaceMap := []
    _subscribers := []
    _actionSubscribers := []
    _makeLocalGettersCache := []
    state := nsRootSt
    log := [] }

/-- Counterexample to **C5** as stated: installing the tree registers
namespace `"x/"` first for module 1 and then for module 3 — the namespace
map ends up holding the LAST registrant (module 3), not the first, though
the collision is reported. -/
theorem duplicate_namespace_counterexample :
    lookupEntry
        ((installModule nsStore nsRootSt [] nsRootMod false).1)._modulesNamespaceMap
        "x/" = some 3
    ∧ ¬ (lookupEntry
        ((installModule nsStore nsRootSt [] nsRootMod false).1)._modulesNamespaceMap
        "x/" = some 1)
    ∧ Ev.duplicateNamespaceLog "x/"
        ∈ ((installModule nsStore nsRootSt [] nsRootMod false).1).log := by
  refine ⟨?_, ?_, ?_⟩ <;>
    simp [installModule, installChildren, nsRootMod, nsModX1, nsModA2, nsModX3,
      nsStore, getNamespace, ModuleT.getChild, ModuleT.children,
      ModuleT.namespaced, ModuleT.mid, ModuleT.state, ModuleT.mutations,
      ModuleT.actions, ModuleT.getters, lookupEntry, setEntry, _withCommit,
      getNestedState, setNestedState, JVal.hasKey, JVal.field, JVal.setField,
      JObj.hasKey, JObj.get, JObj.set, nsRootSt]

/-- A store whose namespace map already holds `"y/"` for module 5, and a
consistent module tree: used to witness the amended C5. -/
def dupStore : Store :=
  { _committing := false
    _mutations := []
    _actions := []
    _wrappedGetters := []
    _modules := .mk 0 false (.obj .nil) [] [] []
      [("y", .mk 5 true (.obj .nil) [] [] [] [])]
    _modulesNamespaceMap := [("y/", 5)]
    _subscribers := []
    _actionSubscribers := []
    _makeLocalGettersCache := []
    state := .obj .nil
    log := [] }

/-- The later registrant for namespace `"y/"` (module identity 6). -/
def dupMod : ModuleT := .mk 6 true (.obj (.cons "z" (.num 1) .nil)) [] [] [] []

theorem duplicate_registration_witness :
    lookupEntry
        ((installModule dupStore (.obj .nil) ["y"] dupMod false).1)._modulesNamespaceMap
        (getNamespace dupStore._modules ["y"]) = some dupMod.mid
    ∧ Ev.duplicateNamespaceLog (getNamespace dupStore._modules ["y"])
        ∈ ((installModule dupStore (.obj .nil) ["y"] dupMod false).1).log
    ∧ (∀ (s : Store) (ty : String) (raw : JVal → JVal → JVal) (p : List String),
        (lookupEntry s._wrappedGetters ty).isSome = true →
        registerGetter s ty raw p
          = { s with log := s.log ++ [.duplicateGetterLog ty] }) := by
  exact duplicate_registration_amended dupStore (.obj .nil) ["y"] dupMod false 5
    rfl rfl rfl

/-- **C6 (amended)**: for every non-root module installed without the hot
flag, the install walk grafts the module's state object into the parent's
state tree under the module's local key UNCONDITIONALLY — a pre-existing
field under that key is overwritten (`Vue.set` is not guarded on key
absence), with a non-fatal warning when the key collides — and the graft
is performed under the committing guard, which is restored afterwards. -/
theorem state_graft_amended (store : Store) (rootState : JVal)
    (path : List String) (mod : ModuleT)
    (hpath : path.isEmpty = false)
    (hch : mod.children = []) :
    (installModule store rootState path mod false).2
      = setNestedState rootState path.dropLast
          ((getNestedState rootState path.dropLast).setField
            ((path.getLast?).getD "") mod.state)
    ∧ Ev.stateGraft path true
        ∈ ((installModule store rootState path mod false).1).log
    ∧ ((getNestedState rootState path.dropLast).hasKey
          ((path.getLast?).getD "") = true →
        Ev.overrideStateFieldLog ((path.getLast?).getD "")
          ∈ ((installModule store rootState path mod false).1).log)
    ∧ ((installModule store rootState path mod false).1)._committing
        = store._committing := by
  have hcond : (!path.isEmpty && !false) = true := by simp [hpath]
  refine ⟨?_, ?_, ?_, ?_⟩
  · simp only [installModule, hch, installChildren, hcond, if_true]
  · simp only [installModule, hch, installChildren, hcond, if_true]
    apply foldRegisterGetters_log_mem
    rw [foldRegisterActions_log, foldRegisterMutations_log]
    by_cases hk : (getNestedState rootState path.dropLast).hasKey
        (path.getLast?.getD "") = true
    · simp only [hk, if_true, _withCommit]
      simp
    · simp only [hk, if_false, _withCommit]
      simp
  · intro hk
    simp only [installModule, hch, installChildren, hcond, if_true]
    apply foldRegisterGetters_log_mem
    rw [foldRegisterActions_log, foldRegisterMutations_log]
    simp only [hk, if_true, _withCommit]
    simp
  · simp only [installModule, hch, installChildren, hcond, if_true]
    rw [foldRegisterGetters_committing, foldRegisterActions_committing,
      foldRegisterMutations_committing]
    by_cases hk : (getNestedState rootState path.dropLast).hasKey
        (path.getLast?.getD "") = true
    all_goals by_cases hn : mod.namespaced = true
    all_goals simp [hk, hn, _withCommit, apply_ite]

/-- A module whose local key `a` collides with a pre-existing root state
field. -/
def graftMod : ModuleT := .mk 9 false (.obj (.cons "b" (.num 2) .nil)) [] [] [] []

def graftStore : Store :=
  { _committing := false
    _mutations := []
    _actions := []
    _wrappedGetters := []
    _modules := .mk 0 false (.obj (.cons "a" (.num 7) .nil)) [] [] []
      [("a", graftMod)]
    _modulesNamespaceMap := []
    _subscribers := []
    _actionSubscribers := []
    _makeLocalGettersCache := []
    state := .obj (.cons "a" (.num 7) .nil)
    log := [] }

/-- Counterexample to **C6** as stated: the root state already holds field
`"a"` (`7`), yet installing module `a` still grafts — the field is
overwritten with the module state (the claim's "only if that key is not
already present" does not hold); the collision produces the warning. -/
theorem graft_overwrites_counterexample :
    (installModule graftStore (.obj (.cons "a" (.num 7) .nil)) ["a"]
        graftMod false).2
      = .obj (.cons "a" (.obj (.cons "b" (.num 2) .nil)) .nil)
    ∧ ¬ ((installModule graftStore (.obj (.cons "a" (.num 7) .nil)) ["a"]
          graftMod false).2
        = .obj (.cons "a" (.num 7) .nil))
    ∧ Ev.overrideStateFieldLog "a"
        ∈ ((installModule graftStore (.obj (.cons "a" (.num 7) .nil)) ["a"]
            graftMod false).1).log := by
  refine ⟨?_, ?_, ?_⟩ <;>
    simp [installModule, installChildren, graftMod, graftStore, getNamespace,
      ModuleT.getChild, ModuleT.children, ModuleT.namespaced, ModuleT.mid,
      ModuleT.state, ModuleT.mutations, ModuleT.actions, ModuleT.getters,
      lookupEntry, setEntry, _withCommit, getNestedState, setNestedState,
      JVal.hasKey, JVal.field, JVal.setField, JObj.hasKey, JObj.get, JObj.set]

theorem state_graft_witness :
    (installModule graftStore (.obj (.cons "a" (.num 7) .nil)) ["a"]
        graftMod false).2
      = setNestedState (.obj (.cons "a" (.num 7) .nil))
          (["a"] : List String).dropLast
          ((getNestedState (.obj (.cons "a" (.num 7) .nil))
              (["a"] : List String).dropLast).setField
            ((["a"] : List String).getLast?.getD "") graftMod.state)
    ∧ Ev.stateGraft ["a"] true
        ∈ ((installModule graftStore (.obj (.cons "a" (.num 7) .nil)) ["a"]
            graftMod false).1).log
    ∧ ((getNestedState (.obj (.cons "a" (.num 7) .nil))
          (["a"] : List String).dropLast).hasKey
          ((["a"] : List String).getLast?.getD "") = true →
        Ev.overrideStateFieldLog ((["a"] : List String).getLast?.getD "")
          ∈ ((installModule graftStore (.obj (.cons "a" (.num 7) .nil)) ["a"]
              graftMod false).1).log)
    ∧ ((installModule graftStore (.obj (.cons "a" (.num 7) .nil)) ["a"]
          graftMod false).1)._committing
        = graftStore._committing :=
  state_graft_amended graftStore (.obj (.cons "a" (.num 7) .nil)) ["a"]
    graftMod rfl rfl
